import Mathlib

/-!
# GravityBalls: the simulation core of `CG_Project.cpp`

A shallow embedding of the physics core of the gravity-balls simulator
(`Vec3`, `Spark`, `Trail`, `Ball`, `spawnSparkExplosion`, `handleCollisions`,
`updateSimulation`) together with theorems about it.

Modelling conventions.

* `float` is modelled by an arbitrary linearly ordered field `F`.  Every
  definition is computable, so it can be run on `ℚ`; the theorems that speak
  of exact arithmetic are stated for every `F` and every square-root function
  that is exact (`ExactSqrt`), which covers `ℝ` with `Real.sqrt`.
* The C library is taken as a parameter: `sqrt` is a function `F → F`, and
  `rand()` reads the next entry of a stream `rnd : ℕ → ℕ`; the number of
  draws made so far is part of the simulation state (`Sim.seed`).
* `std::vector` is `List`; loops with a fixed trip count are recursions on
  that count, and the two erase-while-scanning loops of `updateSimulation`
  carry explicit fuel and return `none` when it runs out.
* Arithmetic is that of the field, where a division by zero gives zero;
  infinities and NaN are not modelled.  The theorems that depend on a quotient
  assume its denominator is not zero (positive masses, positive distance).
* Rounding is modelled separately, for the ball-to-ball loop body only:
  `collidePair32` is `collidePair` with every operation rounded to binary32.
  It shows where a property of the exact pair resolution does not survive the
  arithmetic of the program.
-/

namespace GravityBalls

/-! ## Vec3 -/

/-- The source's `struct Vec3 { float x, y, z; }`. -/
structure Vec3 (F : Type) where
  x : F
  y : F
  z : F
deriving DecidableEq

namespace Vec3

variable {F : Type} [LinearOrderedField F]

/-- The default constructor `Vec3()`, all components zero. -/
def zero : Vec3 F := ⟨0, 0, 0⟩

/-- Component-wise sum, `operator+` (and `operator+=`). -/
def add (a b : Vec3 F) : Vec3 F := ⟨a.x + b.x, a.y + b.y, a.z + b.z⟩

/-- Component-wise difference, `operator-`. -/
def sub (a b : Vec3 F) : Vec3 F := ⟨a.x - b.x, a.y - b.y, a.z - b.z⟩

/-- Scaling by a scalar, `operator*(float)`. -/
def mul (a : Vec3 F) (s : F) : Vec3 F := ⟨a.x * s, a.y * s, a.z * s⟩

/-- Division by a scalar, `operator/(float)`. -/
def div (a : Vec3 F) (s : F) : Vec3 F := ⟨a.x / s, a.y / s, a.z / s⟩

instance : Add (Vec3 F) := ⟨add⟩

instance : Sub (Vec3 F) := ⟨sub⟩

instance : HMul (Vec3 F) F (Vec3 F) := ⟨mul⟩

instance : HDiv (Vec3 F) F (Vec3 F) := ⟨div⟩

/-- Squared Euclidean norm, the argument of `sqrt` in `length()`. -/
def lengthSq (a : Vec3 F) : F := a.x * a.x + a.y * a.y + a.z * a.z

/-- Euclidean norm, `length()`: `sqrt(x * x + y * y + z * z)`. -/
def length (sqrt : F → F) (a : Vec3 F) : F := sqrt (a.x * a.x + a.y * a.y + a.z * a.z)

/-- Unit vector, `normalized()`: `l > 0 ? *this / l : Vec3()`. -/
def normalized (sqrt : F → F) (a : Vec3 F) : Vec3 F :=
  let l := a.length sqrt
  if l > 0 then a / l else zero

/-- Dot product, `dot`. -/
def dot (a b : Vec3 F) : F := a.x * b.x + a.y * b.y + a.z * b.z

/-- Mirror image, `reflect`: `*this - n * 2.0f * this->dot(n)`. -/
def reflect (a n : Vec3 F) : Vec3 F := a - n * (2 : F) * a.dot n

end Vec3

/-! ## Global configuration and the C library -/

/-- The global configuration variables read by the simulation core, and the
two C library functions it calls (`sqrt`, `rand` with `RAND_MAX`). -/
structure Config (F : Type) where
  boxSize : F
  globalGravity : F
  globalFriction : F
  restitution : F
  entropyLevel : F
  paused : Bool
  wallsAreMagnetic : Bool
  blackHoleMode : Bool
  cursorGravityMode : Bool
  cursorWorldTarget : Vec3 F
  /-- The library square root. -/
  sqrt : F → F
  /-- The values returned by successive calls of `rand()`. -/
  rnd : ℕ → ℕ
  /-- The library constant `RAND_MAX`. -/
  randMax : ℕ

/-- A square-root function is exact when, on every non-negative argument, it
returns the non-negative number whose square is the argument. -/
def ExactSqrt {F : Type} [LinearOrderedField F] (sqrt : F → F) : Prop :=
  ∀ x : F, 0 ≤ x → 0 ≤ sqrt x ∧ sqrt x * sqrt x = x

variable {F : Type} [LinearOrderedField F]

/-- The expression `((rand() % 200) - 100) / 100.0f` for a drawn value `r`:
integer remainder and difference, then a division in `float`. -/
def jitter (r : ℕ) : F := (((((r % 200 : ℕ) : ℤ) - 100 : ℤ) : F)) / 100

/-! ## Spark -/

/-- The source's `struct Spark`. -/
structure Spark (F : Type) where
  pos : Vec3 F
  vel : Vec3 F
  life : F
  r : F
  g : F
  b : F
deriving DecidableEq

/-- The constructor `Spark(p, v)`: life `1.0f`, colour with one `rand()`
draw for the green channel.  Returns the spark and the advanced draw count. -/
def Spark.new (cfg : Config F) (p v : Vec3 F) (seed : ℕ) : Spark F × ℕ :=
  ({ pos := p, vel := v, life := 1, r := 1,
     g := 1 / 2 + (cfg.rnd seed : F) / (cfg.randMax : F) * (1 / 2), b := 0 }, seed + 1)

/-- The method `Spark::update(dt)`. -/
def Spark.update (cfg : Config F) (dt : F) (s : Spark F) : Spark F :=
  let life := s.life - dt
  let vel := s.vel + (⟨0, cfg.globalGravity, 0⟩ : Vec3 F) * dt * (1 / 10 : F)
  let pos := s.pos + vel * dt
  { s with pos := pos, vel := vel, life := life }

/-! ## Trail -/

/-- The source's `struct Trail`: the vector `points`. -/
structure Trail (F : Type) where
  points : List (Vec3 F)
deriving DecidableEq

/-- The method `Trail::add(pos)`: `push_back`, then erase the first point when
the size exceeds 30. -/
def Trail.add (t : Trail F) (pos : Vec3 F) : Trail F :=
  let points := t.points ++ [pos]
  if points.length > 30 then ⟨points.tail⟩ else ⟨points⟩

/-! ## Ball -/

/-- The source's `struct Ball`. -/
structure Ball (F : Type) where
  pos : Vec3 F
  vel : Vec3 F
  radius : F
  mass : F
  r : F
  g : F
  b : F
  trail : Trail F
deriving DecidableEq

/-- The constructor `Ball(p, v, radius)`: the radius is stored as passed,
`mass = radius * radius * radius`, and three `rand()` draws give the colour.
Returns the ball and the advanced draw count. -/
def Ball.new (cfg : Config F) (p v : Vec3 F) (radius : F) (seed : ℕ) : Ball F × ℕ :=
  ({ pos := p, vel := v, radius := radius, mass := radius * radius * radius,
     r := (cfg.rnd seed : F) / (cfg.randMax : F),
     g := (cfg.rnd (seed + 1) : F) / (cfg.randMax : F),
     b := (cfg.rnd (seed + 2) : F) / (cfg.randMax : F),
     trail := ⟨[]⟩ }, seed + 3)

/-- The black-hole branch of `Ball::update`: the velocity after the pull. -/
def Ball.blackHolePull (cfg : Config F) (dt : F) (pos vel : Vec3 F) : Vec3 F :=
  let toCenter := (⟨0, 0, 0⟩ : Vec3 F) - pos
  let distSq := toCenter.length cfg.sqrt
  let distSq := max 1 distSq
  let pull := toCenter.normalized cfg.sqrt * (100 / distSq)
  vel + pull * dt

/-- The cursor-gravity branch of `Ball::update`: the velocity after the pull. -/
def Ball.cursorPull (cfg : Config F) (dt : F) (pos vel : Vec3 F) : Vec3 F :=
  let toCursor := cfg.cursorWorldTarget - pos
  let distSq := toCursor.length cfg.sqrt
  if distSq > 1 / 2 then
    let pull := toCursor.normalized cfg.sqrt * (200 / distSq)
    vel + pull * dt
  else vel

/-- The magnetic-walls branch of `Ball::update`: the velocity after the pull. -/
def Ball.magneticPull (cfg : Config F) (dt : F) (pos vel : Vec3 F) : Vec3 F :=
  let pullStrength : F := 200
  let wallDist := cfg.boxSize
  let dX1 := |(-wallDist - pos.x)|
  let dX2 := |(wallDist - pos.x)|
  let dY1 := |(-wallDist - pos.y)|
  let dY2 := |(wallDist - pos.y)|
  let dZ1 := |(-wallDist - pos.z)|
  let dZ2 := |(wallDist - pos.z)|
  let force : Vec3 F :=
    ⟨0 + 1 / (dX1 * dX1 + 1 / 10) - 1 / (dX2 * dX2 + 1 / 10),
     0 + 1 / (dY1 * dY1 + 1 / 10) - 1 / (dY2 * dY2 + 1 / 10),
     0 + 1 / (dZ1 * dZ1 + 1 / 10) - 1 / (dZ2 * dZ2 + 1 / 10)⟩
  vel + force * pullStrength * dt

/-- The method `Ball::update(dt)`: field pulls, gravity, friction, position
integration, trail, then three `rand()` draws for the entropy jitter. -/
def Ball.update (cfg : Config F) (dt : F) (b : Ball F) (seed : ℕ) : Ball F × ℕ :=
  let vel := b.vel
  let vel := if cfg.blackHoleMode then Ball.blackHolePull cfg dt b.pos vel else vel
  let vel := if cfg.cursorGravityMode then Ball.cursorPull cfg dt b.pos vel else vel
  let vel := if cfg.wallsAreMagnetic then Ball.magneticPull cfg dt b.pos vel else vel
  let vel := vel + (⟨0, cfg.globalGravity, 0⟩ : Vec3 F) * dt
  let vel := vel * (1 - cfg.globalFriction * dt)
  let pos := b.pos + vel * dt
  let trail := b.trail.add pos
  let vx := vel.x + jitter (cfg.rnd seed) * cfg.entropyLevel * 100 * dt
  let vy := vel.y + jitter (cfg.rnd (seed + 1)) * cfg.entropyLevel * 100 * dt
  let vz := vel.z + jitter (cfg.rnd (seed + 2)) * cfg.entropyLevel * 100 * dt
  ({ b with pos := pos, vel := ⟨vx, vy, vz⟩, trail := trail }, seed + 3)

/-! ## Simulation state -/

/-- The mutable state of the core: the global vectors `balls` and `sparks`,
and the number of `rand()` draws made so far. -/
structure Sim (F : Type) where
  balls : List (Ball F)
  sparks : List (Spark F)
  seed : ℕ

/-- The function `spawnSparkExplosion(position, count)`: `count` times, three
draws for the direction (taken in the order of the constructor arguments),
then `sparks.emplace_back(position, dir * 3.0f)`, whose constructor makes a
fourth draw. -/
def spawnSparkExplosion (cfg : Config F) (position : Vec3 F) : ℕ → Sim F → Sim F
  | 0, s => s
  | count + 1, s =>
    let dir : Vec3 F :=
      ⟨jitter (cfg.rnd s.seed), jitter (cfg.rnd (s.seed + 1)), jitter (cfg.rnd (s.seed + 2))⟩
    let sp := Spark.new cfg position (dir * (3 : F)) (s.seed + 3)
    spawnSparkExplosion cfg position count
      { s with sparks := s.sparks ++ [sp.1], seed := sp.2 }

/-! ## Collision handling -/

/-- One pass of the wall-collision loop body of `handleCollisions` for one
axis: `coord` and `vel` are the coordinate and velocity component the two
pointers refer to.  Returns the new coordinate and velocity component. -/
def wallAxis (cfg : Config F) (radius coord vel : F) : F × F :=
  let cv : F × F :=
    if coord - radius < -cfg.boxSize then (-cfg.boxSize + radius, vel * -cfg.restitution)
    else (coord, vel)
  if cv.1 + radius > cfg.boxSize then (cfg.boxSize - radius, cv.2 * -cfg.restitution)
  else cv

/-- The wall-collision loop `for (int j = 0; j < 3; ++j)` of `handleCollisions`
for the ball `A`: the axes x, y, z in turn. -/
def wallCollisions (cfg : Config F) (A : Ball F) : Ball F :=
  let ax := wallAxis cfg A.radius A.pos.x A.vel.x
  let ay := wallAxis cfg A.radius A.pos.y A.vel.y
  let az := wallAxis cfg A.radius A.pos.z A.vel.z
  { A with pos := ⟨ax.1, ay.1, az.1⟩, vel := ⟨ax.2, ay.2, az.2⟩ }

/-- The body of the ball-to-ball loop of `handleCollisions` for the pair
`A = balls[i]`, `B = balls[j]`: the two balls afterwards, and the position
passed to `spawnSparkExplosion` when the velocity branch is taken. -/
def collidePair (cfg : Config F) (A B : Ball F) : Ball F × Ball F × Option (Vec3 F) :=
  let delta := B.pos - A.pos
  let dist := delta.length cfg.sqrt
  let minDist := A.radius + B.radius
  if dist < minDist ∧ dist > 0 then
    let normal := delta.normalized cfg.sqrt
    let overlap := 1 / 2 * (minDist - dist)
    let A1 : Ball F := { A with pos := A.pos - normal * overlap }
    let B1 : Ball F := { B with pos := B.pos + normal * overlap }
    let relVel := B1.vel - A1.vel
    let velAlongNormal := relVel.dot normal
    if velAlongNormal < 0 then
      let impulse := -(1 + cfg.restitution) * velAlongNormal
      let impulse := impulse / (1 / A1.mass + 1 / B1.mass)
      let impulseVec := normal * impulse
      let A2 : Ball F := { A1 with vel := A1.vel - impulseVec / A1.mass }
      let B2 : Ball F := { B1 with vel := B1.vel + impulseVec / B1.mass }
      (A2, B2, some ((A2.pos + B2.pos) * (1 / 2 : F)))
    else (A1, B1, none)
  else (A, B, none)

/-- The wall-collision part of iteration `i` of `handleCollisions`, on the
state: `balls[i]` is replaced by its wall-resolved value. -/
def wallStep (cfg : Config F) (i : ℕ) (s : Sim F) : Sim F :=
  match s.balls[i]? with
  | some A => { s with balls := s.balls.set i (wallCollisions cfg A) }
  | none => s

/-- One iteration of the ball-to-ball loop of `handleCollisions` on the state,
for the indices `i` and `j`: both balls are written back and the sparks are
spawned when the velocity branch was taken. -/
def ballToBall (cfg : Config F) (i j : ℕ) (s : Sim F) : Sim F :=
  match s.balls[i]?, s.balls[j]? with
  | some A, some B =>
    let r := collidePair cfg A B
    let s1 : Sim F := { s with balls := (s.balls.set i r.1).set j r.2.1 }
    match r.2.2 with
    | some p => spawnSparkExplosion cfg p 15 s1
    | none => s1
  | _, _ => s

/-- The loop `for (size_t j = ...; j < balls.size(); ++j)` of
`handleCollisions`, with `n` iterations left and the current value of `j`. -/
def pairLoop (cfg : Config F) (i : ℕ) : ℕ → ℕ → Sim F → Sim F
  | 0, _, s => s
  | n + 1, j, s => pairLoop cfg i n (j + 1) (ballToBall cfg i j s)

/-- The loop `for (size_t i = ...; i < balls.size(); ++i)` of
`handleCollisions`, with `n` iterations left and the current value of `i`:
the wall collisions of `balls[i]`, then its pairs with every later ball. -/
def bodyLoop (cfg : Config F) : ℕ → ℕ → Sim F → Sim F
  | 0, _, s => s
  | n + 1, i, s =>
    let s1 := wallStep cfg i s
    bodyLoop cfg n (i + 1) (pairLoop cfg i (s1.balls.length - (i + 1)) (i + 1) s1)

/-- The function `handleCollisions()`.  The size of `balls` does not change
while it runs, so the outer loop makes `balls.size()` iterations. -/
def handleCollisions (cfg : Config F) (s : Sim F) : Sim F :=
  bodyLoop cfg s.balls.length 0 s

/-! ## The simulation step -/

/-- The black-hole scan of `updateSimulation`,
`for (size_t i = 0; i < balls.size();)`, from index `i`.  A ball closer than 1
to the origin is erased after its spark burst and the index stays; the inner
test repeats the outer one, and its `else` side continues without advancing.
Every iteration uses one unit of fuel; `none` when the fuel runs out. -/
def consumeLoop (cfg : Config F) : ℕ → ℕ → Sim F → Option (Sim F)
  | 0, _, _ => none
  | fuel + 1, i, s =>
    match s.balls[i]? with
    | some b =>
      if b.pos.length cfg.sqrt < 1 then
        if b.pos.length cfg.sqrt < 1 then
          let s1 := spawnSparkExplosion cfg b.pos 20 s
          consumeLoop cfg fuel i { s1 with balls := s1.balls.eraseIdx i }
        else consumeLoop cfg fuel i s
      else consumeLoop cfg fuel (i + 1) s
    | none => some s

/-- The loop `for (auto& b : balls) b.update(dt)` of `updateSimulation`, on
the balls still to be updated; the draw count is threaded through. -/
def updateBalls (cfg : Config F) (dt : F) : List (Ball F) → ℕ → List (Ball F) × ℕ
  | [], seed => ([], seed)
  | b :: rest, seed =>
    let r := Ball.update cfg dt b seed
    let rs := updateBalls cfg dt rest r.2
    (r.1 :: rs.1, rs.2)

/-- The spark loop of `updateSimulation`,
`for (size_t i = 0; i < sparks.size();)`, from index `i`: the spark is
updated in place, then erased when its life is not positive, otherwise the
index advances.  Every iteration uses one unit of fuel; `none` when the fuel
runs out. -/
def sparkLoop (cfg : Config F) (dt : F) : ℕ → ℕ → List (Spark F) → Option (List (Spark F))
  | 0, _, _ => none
  | fuel + 1, i, sparks =>
    match sparks[i]? with
    | some sp =>
      let sparks1 := sparks.set i (Spark.update cfg dt sp)
      if (Spark.update cfg dt sp).life ≤ 0 then sparkLoop cfg dt fuel i (sparks1.eraseIdx i)
      else sparkLoop cfg dt fuel (i + 1) sparks1
    | none => some sparks

/-- The guarded black-hole scan at the start of `updateSimulation`:
`if (blackHoleMode) { for (...) ... }`.  The loop gets one unit of fuel per
ball and one for the final test. -/
def consumeScan (cfg : Config F) (s : Sim F) : Option (Sim F) :=
  if cfg.blackHoleMode then consumeLoop cfg (s.balls.length + 1) 0 s else some s

/-- The function `updateSimulation(dt)`.  The spark loop gets one unit of fuel
per spark and one for the final test; with the fuel given the two scanning
loops always finish (`updateSimulation_isSome`). -/
def updateSimulation (cfg : Config F) (dt : F) (s : Sim F) : Option (Sim F) :=
  if cfg.paused then some s
  else
    (consumeScan cfg s).bind fun s1 =>
      let bs := updateBalls cfg dt s1.balls s1.seed
      let s2 : Sim F := { s1 with balls := bs.1, seed := bs.2 }
      let s3 := handleCollisions cfg s2
      (sparkLoop cfg dt (s3.sparks.length + 1) 0 s3.sparks).map
        fun sparks => { s3 with sparks := sparks }

/-- Repeated calls `updateSimulation(dt)`, `n` of them. -/
def runSteps (cfg : Config F) (dt : F) : ℕ → Sim F → Option (Sim F)
  | 0, s => some s
  | n + 1, s => (updateSimulation cfg dt s).bind (runSteps cfg dt n)

/-! ## Two descriptions of the collision order -/

/-- The first pass of the two-pass description: the wall step of every ball,
in index order (`n` balls left, current index `i`). -/
def wallPass (cfg : Config F) : ℕ → ℕ → Sim F → Sim F
  | 0, _, s => s
  | n + 1, i, s => wallPass cfg n (i + 1) (wallStep cfg i s)

/-- The second pass of the two-pass description: the pair resolution of all
pairs `i < j`, in index order (`n` values of `i` left, current index `i`). -/
def pairPass (cfg : Config F) : ℕ → ℕ → Sim F → Sim F
  | 0, _, s => s
  | n + 1, i, s => pairPass cfg n (i + 1) (pairLoop cfg i (s.balls.length - (i + 1)) (i + 1) s)

/-- The two-pass description of collision resolution: first the wall step on
every ball, and only then the pair resolution over all pairs `i < j`. -/
def twoPassCollisions (cfg : Config F) (s : Sim F) : Sim F :=
  let s1 := wallPass cfg s.balls.length 0 s
  pairPass cfg s1.balls.length 0 s1

/-- The ball `A` resolved against each ball of `rest` in turn: the final `A`,
the balls of `rest` afterwards, and the positions of the spark bursts, in the
order they are spawned. -/
def resolveAgainst (cfg : Config F) (A : Ball F) :
    List (Ball F) → Ball F × List (Ball F) × List (Vec3 F)
  | [] => (A, [], [])
  | B :: rest =>
    let r := collidePair cfg A B
    let t := resolveAgainst cfg r.1 rest
    (t.1, r.2.1 :: t.2.1, r.2.2.toList ++ t.2.2)

/-- The interleaved description of collision resolution: the first ball
gets its wall step and is then resolved against each later ball in turn;
after that the later balls, as they then are, are treated the same way.
Returns the balls and the positions of the spark bursts in spawning order.
The recursion is on the number of balls. -/
def interleavedFrom (cfg : Config F) : ℕ → List (Ball F) → List (Ball F) × List (Vec3 F)
  | 0, balls => (balls, [])
  | _ + 1, [] => ([], [])
  | n + 1, A :: rest =>
    let t := resolveAgainst cfg (wallCollisions cfg A) rest
    let u := interleavedFrom cfg n t.2.1
    (t.1 :: u.1, t.2.2 ++ u.2)

/-- The spark bursts of 15 sparks at the given positions, in order. -/
def burstAll (cfg : Config F) : List (Vec3 F) → Sim F → Sim F
  | [], s => s
  | p :: ps, s => burstAll cfg ps (spawnSparkExplosion cfg p 15 s)

/-- The interleaved description on the whole state. -/
def interleavedCollisions (cfg : Config F) (s : Sim F) : Sim F :=
  let t := interleavedFrom cfg s.balls.length s.balls
  burstAll cfg t.2 { s with balls := t.1 }

/-- Whether every coordinate of the ball centre is within the box:
`|c| ≤ boxSize` on the three axes. -/
def insideBox (cfg : Config F) (b : Ball F) : Prop :=
  |b.pos.x| ≤ cfg.boxSize ∧ |b.pos.y| ≤ cfg.boxSize ∧ |b.pos.z| ≤ cfg.boxSize

instance (cfg : Config F) (b : Ball F) : Decidable (insideBox cfg b) := by
  unfold insideBox; infer_instance

/-! ## Evaluation on rationals -/

/-- Largest `k ≤ fuel` with `k * k ≤ n` (`0` if there is none). -/
def sqrtIter : ℕ → ℕ → ℕ
  | 0, _ => 0
  | k + 1, n => if (k + 1) * (k + 1) ≤ n then k + 1 else sqrtIter k n

/-- A square root on `ℚ` for running the model: exact on the squares of
rationals (integer square roots of numerator and denominator). -/
def qsqrt (q : ℚ) : ℚ :=
  (sqrtIter q.num.toNat q.num.toNat : ℚ) / (sqrtIter q.den q.den : ℚ)

/-- The initial values of the global configuration in the source
(`boxSize = 10`, gravity `-9.8`, friction `0.1`, `restitution = 0.9`, entropy
`0`, not paused, all modes off), with the given square root and a `rand()`
that always returns 0 (`RAND_MAX = 32767`). -/
def initialConfig (F : Type) [LinearOrderedField F] (sqrt : F → F) : Config F :=
  { boxSize := 10, globalGravity := -98 / 10, globalFriction := 1 / 10, restitution := 9 / 10,
    entropyLevel := 0, paused := false, wallsAreMagnetic := false, blackHoleMode := false,
    cursorGravityMode := false, cursorWorldTarget := ⟨0, 0, 0⟩,
    sqrt := sqrt, rnd := fun _ => 0, randMax := 32767 }

/-- The initial configuration on `ℚ`, with `qsqrt`. -/
def cfg0 : Config ℚ := initialConfig ℚ qsqrt

/-- The ball `Ball(Vec3(x, 0, 0), Vec3(vx, 0, 0), radius)` as built by the
constructor (`rand()` returning 0: black). -/
def ballAt (F : Type) [LinearOrderedField F] (x vx radius : F) : Ball F :=
  (Ball.new (initialConfig F id) ⟨x, 0, 0⟩ ⟨vx, 0, 0⟩ radius 0).1

/-! ## Named parts of the pair resolution -/

/-- The contact test of the ball-to-ball loop: `dist < minDist && dist > 0`. -/
def inContact (cfg : Config F) (A B : Ball F) : Prop :=
  (B.pos - A.pos).length cfg.sqrt < A.radius + B.radius ∧ (B.pos - A.pos).length cfg.sqrt > 0

instance (cfg : Config F) (A B : Ball F) : Decidable (inContact cfg A B) := by
  unfold inContact; infer_instance

/-- The collision normal of the pair, `delta.normalized()`. -/
def contactNormal (cfg : Config F) (A B : Ball F) : Vec3 F :=
  (B.pos - A.pos).normalized cfg.sqrt

/-- The value of `velAlongNormal` for the pair. -/
def approachSpeed (cfg : Config F) (A B : Ball F) : F :=
  (B.vel - A.vel).dot (contactNormal cfg A B)

/-- The value of `overlap` for the pair. -/
def contactOverlap (cfg : Config F) (A B : Ball F) : F :=
  1 / 2 * (A.radius + B.radius - (B.pos - A.pos).length cfg.sqrt)

/-- The final value of `impulse` for the pair. -/
def contactImpulse (cfg : Config F) (A B : Ball F) : F :=
  -(1 + cfg.restitution) * approachSpeed cfg A B / (1 / A.mass + 1 / B.mass)

/-! ## Named quantities of `Ball::update` and of a pair -/

/-- The velocity `v1` after gravity and friction in `Ball::update` with all
modes off: `(vel + (0, g * dt, 0)) * (1 - f * dt)`. -/
def Ball.dampedVelocity (cfg : Config F) (dt : F) (b : Ball F) : Vec3 F :=
  (b.vel + (⟨0, cfg.globalGravity * dt, 0⟩ : Vec3 F)) * (1 - cfg.globalFriction * dt)

/-- The total linear momentum `massA * velA + massB * velB` of a pair. -/
def pairMomentum (A B : Ball F) : Vec3 F := A.vel * A.mass + B.vel * B.mass

/-! ## The pair resolution in binary32

The definitions above compute in an exact field.  The program computes in
binary32 `float`: every arithmetic operation is rounded to nearest, ties to
even.  The definitions below model that for the ball-to-ball loop body, on
rationals that are binary32 numbers; overflow, infinities and NaN are not
modelled (the divisors are not zero and the values are small where the model
is used). -/

namespace F32

/-- The power `2 ^ p` for an integer exponent. -/
def pow2 (p : ℤ) : ℚ :=
  if 0 ≤ p then ((2 ^ p.toNat : ℕ) : ℚ) else 1 / ((2 ^ (-p).toNat : ℕ) : ℚ)

/-- The number of halvings that bring `n` below 2, at most `fuel` of them:
the position of the leading bit of `n` when `fuel` is at least that. -/
def leadingBit : ℕ → ℕ → ℕ
  | 0, _ => 0
  | fuel + 1, n => if n < 2 then 0 else leadingBit fuel (n / 2) + 1

/-- The exponent `e` with `2 ^ e ≤ n / d < 2 ^ (e + 1)`, for `n, d > 0`. -/
def floorLog2 (n d : ℕ) : ℤ :=
  let e0 : ℤ := (leadingBit n n : ℤ) - (leadingBit d d : ℤ)
  if pow2 e0 * (d : ℚ) ≤ (n : ℚ) then e0 else e0 - 1

/-- The integer nearest to `n / d`, ties to the even one (`d > 0`). -/
def nearestEven (n d : ℕ) : ℕ :=
  let q := n / d
  let r := n % d
  if 2 * r < d then q else if d < 2 * r then q + 1 else if q % 2 = 0 then q else q + 1

/-- The exponent of the last place of a binary32 number of magnitude in
`[2 ^ e, 2 ^ (e + 1))`: 24 significant bits, subnormal below `2 ^ (-126)`. -/
def ulpExp (e : ℤ) : ℤ := max (e - 23) (-149)

/-- Rounding of a rational to binary32, to nearest, ties to even. -/
def round (q : ℚ) : ℚ :=
  if q = 0 then 0
  else
    let n := q.num.natAbs
    let d := q.den
    let p := ulpExp (floorLog2 n d)
    let scaled : ℚ := (n : ℚ) / (d : ℚ) / pow2 p
    let m := nearestEven scaled.num.natAbs scaled.den
    let r : ℚ := (m : ℚ) * pow2 p
    if q < 0 then -r else r

/-- The largest `r` below `2 ^ k` with `r * r ≤ n`, found bit by bit. -/
def isqrtBits (n : ℕ) : ℕ → ℕ → ℕ
  | 0, r => r
  | k + 1, r => if (r + 2 ^ k) * (r + 2 ^ k) ≤ n then isqrtBits n k (r + 2 ^ k) else isqrtBits n k r

/-- The correctly rounded binary32 square root of a non-negative rational. -/
def sqrt (q : ℚ) : ℚ :=
  if q ≤ 0 then 0
  else
    let e : ℤ := floorLog2 q.num.natAbs q.den / 2
    let p := ulpExp e
    let y : ℚ := q / (pow2 p * pow2 p)
    let t := isqrtBits (y.num.natAbs / y.den) 64 0
    let m :=
      if 4 * y < ((2 * t + 1) * (2 * t + 1) : ℕ) then t
      else if ((2 * t + 1) * (2 * t + 1) : ℕ) < 4 * y then t + 1
      else if t % 2 = 0 then t else t + 1
    (m : ℚ) * pow2 p

/-- The binary32 sum. -/
def add (a b : ℚ) : ℚ := round (a + b)

/-- The binary32 difference. -/
def sub (a b : ℚ) : ℚ := round (a - b)

/-- The binary32 product. -/
def mul (a b : ℚ) : ℚ := round (a * b)

/-- The binary32 quotient (the divisor is not zero where it is used). -/
def div (a b : ℚ) : ℚ := round (a / b)

end F32

/-- `Vec3::operator+` in binary32. -/
def Vec3.add32 (a b : Vec3 ℚ) : Vec3 ℚ := ⟨F32.add a.x b.x, F32.add a.y b.y, F32.add a.z b.z⟩

/-- `Vec3::operator-` in binary32. -/
def Vec3.sub32 (a b : Vec3 ℚ) : Vec3 ℚ := ⟨F32.sub a.x b.x, F32.sub a.y b.y, F32.sub a.z b.z⟩

/-- `Vec3::operator*(float)` in binary32. -/
def Vec3.mul32 (a : Vec3 ℚ) (s : ℚ) : Vec3 ℚ := ⟨F32.mul a.x s, F32.mul a.y s, F32.mul a.z s⟩

/-- `Vec3::operator/(float)` in binary32. -/
def Vec3.div32 (a : Vec3 ℚ) (s : ℚ) : Vec3 ℚ := ⟨F32.div a.x s, F32.div a.y s, F32.div a.z s⟩

/-- `Vec3::length()` in binary32: `sqrt(x * x + y * y + z * z)`, every product
and sum rounded, then the correctly rounded square root. -/
def Vec3.length32 (a : Vec3 ℚ) : ℚ :=
  F32.sqrt (F32.add (F32.add (F32.mul a.x a.x) (F32.mul a.y a.y)) (F32.mul a.z a.z))

/-- `Vec3::normalized()` in binary32. -/
def Vec3.normalized32 (a : Vec3 ℚ) : Vec3 ℚ :=
  let l := a.length32
  if l > 0 then a.div32 l else Vec3.zero

/-- `Vec3::dot` in binary32. -/
def Vec3.dot32 (a b : Vec3 ℚ) : ℚ :=
  F32.add (F32.add (F32.mul a.x b.x) (F32.mul a.y b.y)) (F32.mul a.z b.z)

/-- The constructor `Ball(p, v, radius)` in binary32 (colour black, no draws):
`mass = radius * radius * radius` with both products rounded. -/
def Ball.new32 (p v : Vec3 ℚ) (radius : ℚ) : Ball ℚ :=
  { pos := p, vel := v, radius := radius, mass := F32.mul (F32.mul radius radius) radius,
    r := 0, g := 0, b := 0, trail := ⟨[]⟩ }

/-- The value of `velAlongNormal` for the pair in binary32, computed as in the
ball-to-ball loop (the velocities are not changed before it is computed). -/
def approachSpeed32 (A B : Ball ℚ) : ℚ :=
  (B.vel.sub32 A.vel).dot32 ((B.pos.sub32 A.pos).normalized32)

/-- The body of the ball-to-ball loop of `handleCollisions` in binary32: the
same statements as `collidePair`, every arithmetic operation rounded to
binary32 as it is carried out. -/
def collidePair32 (restitution : ℚ) (A B : Ball ℚ) : Ball ℚ × Ball ℚ × Option (Vec3 ℚ) :=
  let delta := B.pos.sub32 A.pos
  let dist := delta.length32
  let minDist := F32.add A.radius B.radius
  if dist < minDist ∧ dist > 0 then
    let normal := delta.normalized32
    let overlap := F32.mul (1 / 2) (F32.sub minDist dist)
    let A1 : Ball ℚ := { A with pos := A.pos.sub32 (normal.mul32 overlap) }
    let B1 : Ball ℚ := { B with pos := B.pos.add32 (normal.mul32 overlap) }
    let relVel := B1.vel.sub32 A1.vel
    let velAlongNormal := relVel.dot32 normal
    if velAlongNormal < 0 then
      let impulse := F32.mul (-(F32.add 1 restitution)) velAlongNormal
      let impulse := F32.div impulse (F32.add (F32.div 1 A1.mass) (F32.div 1 B1.mass))
      let impulseVec := normal.mul32 impulse
      let A2 : Ball ℚ := { A1 with vel := A1.vel.sub32 (impulseVec.div32 A1.mass) }
      let B2 : Ball ℚ := { B1 with vel := B1.vel.add32 (impulseVec.div32 B1.mass) }
      (A2, B2, some ((A2.pos.add32 B2.pos).mul32 (1 / 2)))
    else (A1, B1, none)
  else (A, B, none)

/-! ## Basic facts about `Vec3` and exact square roots -/

section Lemmas

variable {F : Type} [LinearOrderedField F]

@[simp] theorem Vec3.add_x (a b : Vec3 F) : (a + b).x = a.x + b.x := rfl

@[simp] theorem Vec3.add_y (a b : Vec3 F) : (a + b).y = a.y + b.y := rfl

@[simp] theorem Vec3.add_z (a b : Vec3 F) : (a + b).z = a.z + b.z := rfl

@[simp] theorem Vec3.sub_x (a b : Vec3 F) : (a - b).x = a.x - b.x := rfl

@[simp] theorem Vec3.sub_y (a b : Vec3 F) : (a - b).y = a.y - b.y := rfl

@[simp] theorem Vec3.sub_z (a b : Vec3 F) : (a - b).z = a.z - b.z := rfl

@[simp] theorem Vec3.mul_x (a : Vec3 F) (s : F) : (a * s).x = a.x * s := rfl

@[simp] theorem Vec3.mul_y (a : Vec3 F) (s : F) : (a * s).y = a.y * s := rfl

@[simp] theorem Vec3.mul_z (a : Vec3 F) (s : F) : (a * s).z = a.z * s := rfl

@[simp] theorem Vec3.div_x (a : Vec3 F) (s : F) : (a / s).x = a.x / s := rfl

@[simp] theorem Vec3.div_y (a : Vec3 F) (s : F) : (a / s).y = a.y / s := rfl

@[simp] theorem Vec3.div_z (a : Vec3 F) (s : F) : (a / s).z = a.z / s := rfl

theorem Vec3.ext_iff3 {G : Type} (a b : Vec3 G) :
    a = b ↔ a.x = b.x ∧ a.y = b.y ∧ a.z = b.z := by
  cases a; cases b; simp

theorem Vec3.length_eq (sqrt : F → F) (a : Vec3 F) : a.length sqrt = sqrt a.lengthSq := rfl

theorem Vec3.lengthSq_nonneg (a : Vec3 F) : 0 ≤ a.lengthSq := by
  unfold Vec3.lengthSq
  nlinarith [mul_self_nonneg a.x, mul_self_nonneg a.y, mul_self_nonneg a.z]

/-- With an exact square root the length is non-negative. -/
theorem ExactSqrt.length_nonneg {sqrt : F → F} (hs : ExactSqrt sqrt) (a : Vec3 F) :
    0 ≤ a.length sqrt :=
  (hs _ a.lengthSq_nonneg).1

/-- With an exact square root the square of the length is the sum of squares. -/
theorem ExactSqrt.length_mul_self {sqrt : F → F} (hs : ExactSqrt sqrt) (a : Vec3 F) :
    a.length sqrt * a.length sqrt = a.lengthSq :=
  (hs _ a.lengthSq_nonneg).2

/-- An exact square root of the square of a non-negative number is that number. -/
theorem ExactSqrt.sqrt_mul_self {sqrt : F → F} (hs : ExactSqrt sqrt) {c : F} (hc : 0 ≤ c) :
    sqrt (c * c) = c := by
  obtain ⟨h0, h1⟩ := hs (c * c) (mul_self_nonneg c)
  exact (mul_self_inj h0 hc).1 h1

/-- An exact square root is strictly increasing on the non-negative numbers. -/
theorem ExactSqrt.lt_of_lt {sqrt : F → F} (hs : ExactSqrt sqrt) {a b : F} (ha : 0 ≤ a)
    (hab : a < b) : sqrt a < sqrt b := by
  obtain ⟨ha0, ha1⟩ := hs a ha
  obtain ⟨hb0, hb1⟩ := hs b (ha.trans hab.le)
  by_contra hcon
  have hle : sqrt b ≤ sqrt a := not_lt.1 hcon
  have : sqrt b * sqrt b ≤ sqrt a * sqrt a := mul_self_le_mul_self hb0 hle
  rw [ha1, hb1] at this
  exact absurd hab (not_lt.2 this)

/-- The real square root is exact. -/
theorem exactSqrt_real : ExactSqrt Real.sqrt := fun x hx =>
  ⟨Real.sqrt_nonneg x, Real.mul_self_sqrt hx⟩

/-! ## The pair resolution of `handleCollisions` -/

theorem collidePair_of_not_inContact (cfg : Config F) (A B : Ball F)
    (h : ¬ inContact cfg A B) : collidePair cfg A B = (A, B, none) := by
  unfold inContact at h
  unfold collidePair
  simp only [h, if_false]

theorem collidePair_of_separating (cfg : Config F) (A B : Ball F) (h : inContact cfg A B)
    (hv : ¬ approachSpeed cfg A B < 0) :
    collidePair cfg A B =
      ({ A with pos := A.pos - contactNormal cfg A B * contactOverlap cfg A B },
       { B with pos := B.pos + contactNormal cfg A B * contactOverlap cfg A B }, none) := by
  unfold inContact at h
  unfold approachSpeed contactNormal at hv
  unfold collidePair
  simp only [h, hv, if_true, if_false, and_self, contactNormal, contactOverlap]

theorem collidePair_of_approaching (cfg : Config F) (A B : Ball F) (h : inContact cfg A B)
    (hv : approachSpeed cfg A B < 0) :
    collidePair cfg A B =
      ({ A with pos := A.pos - contactNormal cfg A B * contactOverlap cfg A B,
                vel := A.vel - contactNormal cfg A B * contactImpulse cfg A B / A.mass },
       { B with pos := B.pos + contactNormal cfg A B * contactOverlap cfg A B,
                vel := B.vel + contactNormal cfg A B * contactImpulse cfg A B / B.mass },
       some ((A.pos - contactNormal cfg A B * contactOverlap cfg A B
              + (B.pos + contactNormal cfg A B * contactOverlap cfg A B)) * (1 / 2 : F))) := by
  unfold inContact at h
  unfold approachSpeed contactNormal at hv
  unfold collidePair
  simp only [h, hv, if_true, and_self, contactNormal, contactOverlap, contactImpulse,
    approachSpeed]

/-- The pair resolution never changes a radius or a mass. -/
theorem collidePair_radius_mass (cfg : Config F) (A B : Ball F) :
    (collidePair cfg A B).1.radius = A.radius ∧ (collidePair cfg A B).2.1.radius = B.radius ∧
    (collidePair cfg A B).1.mass = A.mass ∧ (collidePair cfg A B).2.1.mass = B.mass := by
  by_cases h : inContact cfg A B
  · by_cases hv : approachSpeed cfg A B < 0
    · rw [collidePair_of_approaching cfg A B h hv]; simp
    · rw [collidePair_of_separating cfg A B h hv]; simp
  · rw [collidePair_of_not_inContact cfg A B h]; simp

/-- The positions after a pair resolution in contact, whichever velocity
branch is taken. -/
theorem collidePair_pos (cfg : Config F) (A B : Ball F) (h : inContact cfg A B) :
    (collidePair cfg A B).1.pos = A.pos - contactNormal cfg A B * contactOverlap cfg A B ∧
    (collidePair cfg A B).2.1.pos = B.pos + contactNormal cfg A B * contactOverlap cfg A B := by
  by_cases hv : approachSpeed cfg A B < 0
  · rw [collidePair_of_approaching cfg A B h hv]; simp
  · rw [collidePair_of_separating cfg A B h hv]; simp

/-- In contact the normal is `delta / dist`. -/
theorem contactNormal_eq (cfg : Config F) (A B : Ball F) (h : inContact cfg A B) :
    contactNormal cfg A B = (B.pos - A.pos) / (B.pos - A.pos).length cfg.sqrt := by
  unfold contactNormal Vec3.normalized
  simp only [h.2, if_true]

/-- The separation vector after the positional correction of a pair in
contact has squared length `minDist * minDist`. -/
theorem collidePair_lengthSq (cfg : Config F) (hs : ExactSqrt cfg.sqrt) (A B : Ball F)
    (h : inContact cfg A B) :
    ((collidePair cfg A B).2.1.pos - (collidePair cfg A B).1.pos).lengthSq =
      (A.radius + B.radius) * (A.radius + B.radius) := by
  have hpos := collidePair_pos cfg A B h
  have hn := contactNormal_eq cfg A B h
  have hdd := hs.length_mul_self (B.pos - A.pos)
  have hd : (B.pos - A.pos).length cfg.sqrt ≠ 0 := ne_of_gt h.2
  rw [hpos.1, hpos.2, hn]
  unfold contactOverlap
  generalize (B.pos - A.pos).length cfg.sqrt = d at hdd hd ⊢
  unfold Vec3.lengthSq at hdd ⊢
  simp only [Vec3.sub_x, Vec3.sub_y, Vec3.sub_z, Vec3.add_x, Vec3.add_y, Vec3.add_z,
    Vec3.mul_x, Vec3.mul_y, Vec3.mul_z, Vec3.div_x, Vec3.div_y, Vec3.div_z] at hdd ⊢
  field_simp
  linear_combination (-(4 : F) * (A.radius + B.radius) ^ 2) * hdd

/-- In contact, with an exact square root, the normal has squared length 1. -/
theorem contactNormal_lengthSq (cfg : Config F) (hs : ExactSqrt cfg.sqrt) (A B : Ball F)
    (h : inContact cfg A B) : (contactNormal cfg A B).lengthSq = 1 := by
  have hdd := hs.length_mul_self (B.pos - A.pos)
  have hd : (B.pos - A.pos).length cfg.sqrt ≠ 0 := ne_of_gt h.2
  rw [contactNormal_eq cfg A B h]
  generalize B.pos - A.pos = δ at hdd hd ⊢
  generalize δ.length cfg.sqrt = d at hdd hd ⊢
  unfold Vec3.lengthSq at hdd ⊢
  simp only [Vec3.div_x, Vec3.div_y, Vec3.div_z]
  field_simp
  linear_combination -hdd

/-- The squared length of a velocity change `n * j / m` along a unit normal. -/
theorem lengthSq_impulse_step (n : Vec3 F) (hn : n.lengthSq = 1) (w : Vec3 F) (j m : F) :
    ((w - n * j / m) - w).lengthSq = (j / m) * (j / m) ∧
    ((w + n * j / m) - w).lengthSq = (j / m) * (j / m) := by
  unfold Vec3.lengthSq at hn ⊢
  simp only [Vec3.sub_x, Vec3.sub_y, Vec3.sub_z, Vec3.add_x, Vec3.add_y, Vec3.add_z,
    Vec3.mul_x, Vec3.mul_y, Vec3.mul_z, Vec3.div_x, Vec3.div_y, Vec3.div_z]
  constructor
  · linear_combination (j / m) * (j / m) * hn
  · linear_combination (j / m) * (j / m) * hn

/-! ### Non-penetration, head-on exchange, mass ordering -/

/-- C3 (non-penetration), in exact arithmetic: for every pair of balls whose
centre distance `d` satisfies `0 < d < radiusA + radiusB`, after the pair
resolution of `handleCollisions` the distance between the two centres is at
least `radiusA + radiusB` (the radii are unchanged), whatever the velocities.
In binary32 the distance can end below `radiusA + radiusB`. -/
theorem collidePair_non_penetration (cfg : Config F) (hs : ExactSqrt cfg.sqrt) (A B : Ball F)
    (hpos : 0 < (B.pos - A.pos).length cfg.sqrt)
    (hlt : (B.pos - A.pos).length cfg.sqrt < A.radius + B.radius) :
    (collidePair cfg A B).1.radius = A.radius ∧ (collidePair cfg A B).2.1.radius = B.radius ∧
    A.radius + B.radius ≤
      ((collidePair cfg A B).2.1.pos - (collidePair cfg A B).1.pos).length cfg.sqrt := by
  have h : inContact cfg A B := ⟨hlt, hpos⟩
  refine ⟨(collidePair_radius_mass cfg A B).1, (collidePair_radius_mass cfg A B).2.1, ?_⟩
  rw [Vec3.length_eq, collidePair_lengthSq cfg hs A B h,
    hs.sqrt_mul_self (le_of_lt (lt_trans hpos hlt))]

/-- Two balls of radius 1 on the reals at distance 1: after the resolution the
centres are at least 2 apart. -/
theorem collidePair_non_penetration_witness :
    0 < ((ballAt ℝ 1 0 1).pos - (ballAt ℝ 0 0 1).pos).length (initialConfig ℝ Real.sqrt).sqrt ∧
    ((ballAt ℝ 1 0 1).pos - (ballAt ℝ 0 0 1).pos).length (initialConfig ℝ Real.sqrt).sqrt <
      (ballAt ℝ 0 0 1).radius + (ballAt ℝ 1 0 1).radius ∧
    (ballAt ℝ 0 0 1).radius + (ballAt ℝ 1 0 1).radius = 2 ∧
    (ballAt ℝ 0 0 1).radius + (ballAt ℝ 1 0 1).radius ≤
      ((collidePair (initialConfig ℝ Real.sqrt) (ballAt ℝ 0 0 1) (ballAt ℝ 1 0 1)).2.1.pos -
        (collidePair (initialConfig ℝ Real.sqrt) (ballAt ℝ 0 0 1) (ballAt ℝ 1 0 1)).1.pos).length
          (initialConfig ℝ Real.sqrt).sqrt :=
  ⟨by simp [ballAt, Ball.new, initialConfig, Vec3.length],
   by simp [ballAt, Ball.new, initialConfig, Vec3.length],
   by simp [ballAt, Ball.new]; norm_num,
   (collidePair_non_penetration (initialConfig ℝ Real.sqrt) exactSqrt_real
      (ballAt ℝ 0 0 1) (ballAt ℝ 1 0 1)
      (by simp [ballAt, Ball.new, initialConfig, Vec3.length])
      (by simp [ballAt, Ball.new, initialConfig, Vec3.length])).2.2⟩

/-- C2 (momentum sanity): with exact arithmetic and `restitution = 1`, two
balls of equal mass `m > 0` in contact (`0 < d < radiusA + radiusB`) with
velocities `v` and `-v`, `v` parallel to the line of centres, and approaching
(`velAlongNormal < 0`), leave the pair resolution with velocities `-v` and `v`. -/
theorem collidePair_head_on (cfg : Config F) (hs : ExactSqrt cfg.sqrt)
    (hrest : cfg.restitution = 1) (A B : Ball F) (m : F) (hm : 0 < m)
    (hmA : A.mass = m) (hmB : B.mass = m) (v : Vec3 F)
    (hvA : A.vel = v) (hvB : B.vel = ⟨-v.x, -v.y, -v.z⟩)
    (k : F) (hpar : v = (B.pos - A.pos) * k)
    (hpos : 0 < (B.pos - A.pos).length cfg.sqrt)
    (hlt : (B.pos - A.pos).length cfg.sqrt < A.radius + B.radius)
    (happ : (B.vel - A.vel).dot ((B.pos - A.pos).normalized cfg.sqrt) < 0) :
    (collidePair cfg A B).1.vel = ⟨-v.x, -v.y, -v.z⟩ ∧ (collidePair cfg A B).2.1.vel = v := by
  have h : inContact cfg A B := ⟨hlt, hpos⟩
  have hn := contactNormal_eq cfg A B h
  have hdd := hs.length_mul_self (B.pos - A.pos)
  have hd : (B.pos - A.pos).length cfg.sqrt ≠ 0 := ne_of_gt hpos
  have hm0 : m ≠ 0 := ne_of_gt hm
  rw [Vec3.ext_iff3] at hpar
  simp only [Vec3.mul_x, Vec3.mul_y, Vec3.mul_z] at hpar
  obtain ⟨hx, hy, hz⟩ := hpar
  have hvan : approachSpeed cfg A B = -2 * k * (B.pos - A.pos).length cfg.sqrt := by
    unfold approachSpeed Vec3.dot
    rw [hn, hvA, hvB]
    generalize B.pos - A.pos = δ at hdd hd hx hy hz ⊢
    simp only [Vec3.sub_x, Vec3.sub_y, Vec3.sub_z, Vec3.div_x, Vec3.div_y, Vec3.div_z]
    rw [hx, hy, hz]
    generalize δ.length cfg.sqrt = d at hdd hd ⊢
    unfold Vec3.lengthSq at hdd
    field_simp
    linear_combination (2 * k) * hdd
  have himp : contactImpulse cfg A B = 2 * k * (B.pos - A.pos).length cfg.sqrt * m := by
    unfold contactImpulse
    rw [hvan, hrest, hmA, hmB]
    field_simp
    ring
  rw [collidePair_of_approaching cfg A B h happ]
  simp only [himp, hn, hmA, hmB, hvA, hvB]
  generalize (B.pos - A.pos).length cfg.sqrt = d at hdd hd ⊢
  simp only [Vec3.ext_iff3, Vec3.sub_x, Vec3.sub_y, Vec3.sub_z, Vec3.add_x, Vec3.add_y,
    Vec3.add_z, Vec3.mul_x, Vec3.mul_y, Vec3.mul_z, Vec3.div_x, Vec3.div_y, Vec3.div_z]
  rw [hx, hy, hz]
  refine ⟨⟨?_, ?_, ?_⟩, ⟨?_, ?_, ?_⟩⟩ <;> field_simp <;> ring

/-- Two unit balls on the reals, one unit apart, velocities `(1, 0, 0)` and
`(-1, 0, 0)`, restitution 1: the velocities are exchanged. -/
theorem collidePair_head_on_witness :
    (collidePair { initialConfig ℝ Real.sqrt with restitution := 1 }
        (ballAt ℝ 0 1 1) (ballAt ℝ 1 (-1) 1)).1.vel = ⟨-1, -0, -0⟩ ∧
    (collidePair { initialConfig ℝ Real.sqrt with restitution := 1 }
        (ballAt ℝ 0 1 1) (ballAt ℝ 1 (-1) 1)).2.1.vel = ⟨1, 0, 0⟩ :=
  collidePair_head_on { initialConfig ℝ Real.sqrt with restitution := 1 } exactSqrt_real rfl
    (ballAt ℝ 0 1 1) (ballAt ℝ 1 (-1) 1) 1 one_pos
    (by simp [ballAt, Ball.new]) (by simp [ballAt, Ball.new]) ⟨1, 0, 0⟩ rfl
    (by simp [ballAt, Ball.new]) 1
    (by simp [ballAt, Ball.new, Vec3.ext_iff3])
    (by simp [ballAt, Ball.new, initialConfig, Vec3.length])
    (by simp [ballAt, Ball.new, initialConfig, Vec3.length])
    (by simp [ballAt, Ball.new, initialConfig, Vec3.length, Vec3.normalized, Vec3.dot])

/-- C5 (mass ordering), in exact arithmetic: for two balls in contact
(`0 < d < radiusA + radiusB`) that approach (`velAlongNormal < 0`), with
restitution `≥ 0` and `massA > massB > 0`, the velocity resolution changes
the velocity of `A` by a strictly smaller magnitude than the velocity of `B`.
This covers restitution in `[0, 1]` and the masses `radius³` of the
constructor, neither of which the proof needs.  In binary32 both changes can
be rounded away. -/
theorem collidePair_mass_ordering (cfg : Config F) (hs : ExactSqrt cfg.sqrt) (A B : Ball F)
    (hpos : 0 < (B.pos - A.pos).length cfg.sqrt)
    (hlt : (B.pos - A.pos).length cfg.sqrt < A.radius + B.radius)
    (happ : (B.vel - A.vel).dot ((B.pos - A.pos).normalized cfg.sqrt) < 0)
    (hr0 : 0 ≤ cfg.restitution) (hAB : B.mass < A.mass) (hB0 : 0 < B.mass) :
    ((collidePair cfg A B).1.vel - A.vel).length cfg.sqrt <
      ((collidePair cfg A B).2.1.vel - B.vel).length cfg.sqrt := by
  have h : inContact cfg A B := ⟨hlt, hpos⟩
  have hA0 : 0 < A.mass := lt_trans hB0 hAB
  have hn := contactNormal_lengthSq cfg hs A B h
  have hj : 0 < contactImpulse cfg A B := by
    unfold contactImpulse
    apply div_pos
    · have hv : approachSpeed cfg A B < 0 := happ
      nlinarith
    · positivity
  rw [collidePair_of_approaching cfg A B h happ]
  simp only [Vec3.length_eq]
  rw [(lengthSq_impulse_step _ hn A.vel _ A.mass).1, (lengthSq_impulse_step _ hn B.vel _ B.mass).2]
  apply hs.lt_of_lt (mul_self_nonneg _)
  have h1 : contactImpulse cfg A B / A.mass < contactImpulse cfg A B / B.mass :=
    div_lt_div_of_pos_left hj hB0 hAB
  have h2 : 0 < contactImpulse cfg A B / A.mass := div_pos hj hA0
  nlinarith

/-- Radius 2 (mass 8) against radius 0.5 (mass 1/8) on the reals, approaching
at equal speed. -/
theorem collidePair_mass_ordering_witness :
    (ballAt ℝ 0 1 2).mass = 8 ∧ (ballAt ℝ 1 (-1) (1 / 2)).mass = 1 / 8 ∧
    ((collidePair (initialConfig ℝ Real.sqrt) (ballAt ℝ 0 1 2) (ballAt ℝ 1 (-1) (1 / 2))).1.vel -
        (ballAt ℝ 0 1 2).vel).length (initialConfig ℝ Real.sqrt).sqrt <
      ((collidePair (initialConfig ℝ Real.sqrt) (ballAt ℝ 0 1 2)
        (ballAt ℝ 1 (-1) (1 / 2))).2.1.vel -
        (ballAt ℝ 1 (-1) (1 / 2)).vel).length (initialConfig ℝ Real.sqrt).sqrt :=
  ⟨by simp [ballAt, Ball.new]; norm_num, by simp [ballAt, Ball.new]; norm_num,
   collidePair_mass_ordering (initialConfig ℝ Real.sqrt) exactSqrt_real
      (ballAt ℝ 0 1 2) (ballAt ℝ 1 (-1) (1 / 2))
      (by simp [ballAt, Ball.new, initialConfig, Vec3.length])
      (by simp [ballAt, Ball.new, initialConfig, Vec3.length]; norm_num)
      (by simp [ballAt, Ball.new, initialConfig, Vec3.length, Vec3.normalized, Vec3.dot])
      (by simp [initialConfig]; norm_num)
      (by simp [ballAt, Ball.new]; norm_num)
      (by simp [ballAt, Ball.new])⟩

/-! ## `Trail::add` and the `Ball` constructor -/

/-- C9 (trail FIFO bounded at 30): for a trail of at most 30 points and any
position `p`, `Trail::add(p)` gives a trail of at most 30 points whose last
element is `p`; below 30 points the result is the old sequence with `p`
appended, and at exactly 30 it is the old sequence without its first element,
order kept, with `p` appended. -/
theorem Trail.add_fifo (t : Trail F) (p : Vec3 F) (h : t.points.length ≤ 30) :
    (t.add p).points.length ≤ 30 ∧ (t.add p).points.getLast? = some p ∧
    (t.points.length < 30 → (t.add p).points = t.points ++ [p]) ∧
    (t.points.length = 30 → (t.add p).points = t.points.tail ++ [p]) := by
  unfold Trail.add
  rcases Nat.lt_or_ge t.points.length 30 with hlt | hge
  · have h1 : ¬ (t.points ++ [p]).length > 30 := by
      simp only [List.length_append, List.length_singleton]; omega
    rw [if_neg h1]
    refine ⟨?_, ?_, fun _ => rfl, fun h30 => ?_⟩
    · simp only [List.length_append, List.length_singleton]; omega
    · simp
    · omega
  · have h30 : t.points.length = 30 := le_antisymm h hge
    have h1 : (t.points ++ [p]).length > 30 := by
      simp only [List.length_append, List.length_singleton]; omega
    have hne : t.points ≠ [] := by
      intro hnil; rw [hnil] at h30; simp at h30
    have htail : (t.points ++ [p]).tail = t.points.tail ++ [p] := List.tail_append_of_ne_nil hne
    rw [if_pos h1]
    refine ⟨?_, ?_, fun hlt => ?_, fun _ => htail⟩
    · simp only [List.length_tail, List.length_append, List.length_singleton]; omega
    · rw [htail]; simp
    · omega

/-- A full trail of 30 points: the oldest point goes, the new one is last. -/
theorem Trail.add_fifo_witness :
    (⟨List.replicate 30 ⟨0, 0, 0⟩⟩ : Trail ℚ).points.length ≤ 30 ∧
    ((⟨List.replicate 30 ⟨0, 0, 0⟩⟩ : Trail ℚ).add ⟨1, 2, 3⟩).points =
      List.replicate 29 ⟨0, 0, 0⟩ ++ [⟨1, 2, 3⟩] :=
  ⟨by decide,
   ((Trail.add_fifo (⟨List.replicate 30 ⟨0, 0, 0⟩⟩ : Trail ℚ) ⟨1, 2, 3⟩ (by decide)).2.2.2
      (by decide))⟩

/-- C8 as stated fails: the constructor does not clamp.  Called with radius
`-1` it creates a ball of radius `-1` and mass `-1`, and with radius `0` a ball
of radius `0` and mass `0`. -/
theorem Ball.new_no_clamp :
    (Ball.new cfg0 ⟨0, 0, 0⟩ ⟨0, 0, 0⟩ (-1) 0).1.radius = -1 ∧
    (Ball.new cfg0 ⟨0, 0, 0⟩ ⟨0, 0, 0⟩ (-1) 0).1.mass = -1 ∧
    ¬ 0 < (Ball.new cfg0 ⟨0, 0, 0⟩ ⟨0, 0, 0⟩ (-1) 0).1.radius ∧
    ¬ 0 < (Ball.new cfg0 ⟨0, 0, 0⟩ ⟨0, 0, 0⟩ 0 0).1.radius ∧
    ¬ 0 < (Ball.new cfg0 ⟨0, 0, 0⟩ ⟨0, 0, 0⟩ 0 0).1.mass := by
  decide!

/-- C8 (spawn radius), as the constructor behaves: `Ball(p, v, radius)` stores
the radius it is given, unchanged, and sets `mass = radius³`; so the created
ball has `radius > 0` and `mass > 0` whenever the given radius is positive. -/
theorem Ball.new_radius_mass (cfg : Config F) (p v : Vec3 F) (radius : F) (seed : ℕ) :
    (Ball.new cfg p v radius seed).1.radius = radius ∧
    (Ball.new cfg p v radius seed).1.mass = radius * radius * radius ∧
    (0 < radius →
      0 < (Ball.new cfg p v radius seed).1.radius ∧ 0 < (Ball.new cfg p v radius seed).1.mass) := by
  refine ⟨rfl, rfl, fun h => ⟨h, ?_⟩⟩
  show 0 < radius * radius * radius
  positivity

/-- The constructor with radius 0.5. -/
theorem Ball.new_radius_mass_witness :
    (0 : ℚ) < 1 / 2 ∧ 0 < (Ball.new cfg0 ⟨0, 0, 0⟩ ⟨0, 0, 0⟩ (1 / 2) 0).1.radius ∧
    0 < (Ball.new cfg0 ⟨0, 0, 0⟩ ⟨0, 0, 0⟩ (1 / 2) 0).1.mass :=
  ⟨by norm_num,
   (Ball.new_radius_mass cfg0 ⟨0, 0, 0⟩ ⟨0, 0, 0⟩ (1 / 2) 0).2.2 (by norm_num)⟩

/-! ## Lists: the element after a prefix -/

theorem getElem?_prefix_cons {α : Type} (pre : List α) (a : α) (rest : List α) :
    (pre ++ a :: rest)[pre.length]? = some a := by
  rw [List.getElem?_append_right (le_refl _)]
  simp

theorem set_prefix_cons {α : Type} (pre : List α) (a b : α) (rest : List α) :
    (pre ++ a :: rest).set pre.length b = pre ++ b :: rest := by
  rw [List.set_append_right _ _ (le_refl _)]
  simp

theorem eraseIdx_prefix_cons {α : Type} (pre : List α) (a : α) (rest : List α) :
    (pre ++ a :: rest).eraseIdx pre.length = pre ++ rest := by
  rw [List.eraseIdx_append_of_length_le (le_refl _)]
  simp

theorem getLast?_cons_ne_nil {α : Type} (a : α) {l : List α} (h : l ≠ []) :
    (a :: l).getLast? = l.getLast? := by
  cases l with
  | nil => exact absurd rfl h
  | cons b l => exact List.getLast?_cons_cons

/-! ## `spawnSparkExplosion` -/

theorem spawnSparkExplosion_balls (cfg : Config F) (p : Vec3 F) (n : ℕ) (s : Sim F) :
    (spawnSparkExplosion cfg p n s).balls = s.balls := by
  induction n generalizing s with
  | zero => rfl
  | succ n ih =>
    unfold spawnSparkExplosion
    rw [ih]

/-- The burst does not look at the balls. -/
theorem spawnSparkExplosion_mk (cfg : Config F) (p : Vec3 F) (n : ℕ) (l l' : List (Ball F))
    (sparks : List (Spark F)) (seed : ℕ) :
    spawnSparkExplosion cfg p n ⟨l, sparks, seed⟩ =
      { spawnSparkExplosion cfg p n ⟨l', sparks, seed⟩ with balls := l } := by
  induction n generalizing sparks seed with
  | zero => rfl
  | succ n ih =>
    simp only [spawnSparkExplosion]
    exact ih _ _

theorem spawnSparkExplosion_with_balls (cfg : Config F) (p : Vec3 F) (n : ℕ) (s : Sim F)
    (l : List (Ball F)) :
    spawnSparkExplosion cfg p n { s with balls := l } =
      { spawnSparkExplosion cfg p n s with balls := l } :=
  spawnSparkExplosion_mk cfg p n l s.balls s.sparks s.seed

/-- A burst appends `n` sparks, all at the given position and with life 1. -/
theorem spawnSparkExplosion_sparks (cfg : Config F) (p : Vec3 F) (n : ℕ) (s : Sim F) :
    ∃ new : List (Spark F), (spawnSparkExplosion cfg p n s).sparks = s.sparks ++ new ∧
      new.map (fun sp => sp.pos) = List.replicate n p ∧ ∀ sp ∈ new, sp.life = 1 := by
  induction n generalizing s with
  | zero => exact ⟨[], by simp [spawnSparkExplosion], rfl, by simp⟩
  | succ n ih =>
    unfold spawnSparkExplosion
    obtain ⟨new, h1, h2, h3⟩ := ih
      { s with
        sparks := s.sparks ++ [(Spark.new cfg p
          ((⟨jitter (cfg.rnd s.seed), jitter (cfg.rnd (s.seed + 1)),
            jitter (cfg.rnd (s.seed + 2))⟩ : Vec3 F) * (3 : F)) (s.seed + 3)).1],
        seed := (Spark.new cfg p
          ((⟨jitter (cfg.rnd s.seed), jitter (cfg.rnd (s.seed + 1)),
            jitter (cfg.rnd (s.seed + 2))⟩ : Vec3 F) * (3 : F)) (s.seed + 3)).2 }
    refine ⟨(Spark.new cfg p
          ((⟨jitter (cfg.rnd s.seed), jitter (cfg.rnd (s.seed + 1)),
            jitter (cfg.rnd (s.seed + 2))⟩ : Vec3 F) * (3 : F)) (s.seed + 3)).1 :: new, ?_, ?_, ?_⟩
    · rw [h1]; simp
    · simp [h2, Spark.new, List.replicate_succ]
    · intro sp hsp
      rcases List.mem_cons.1 hsp with h | h
      · rw [h]; rfl
      · exact h3 sp h

theorem burstAll_with_balls (cfg : Config F) (ev : List (Vec3 F)) (s : Sim F)
    (l : List (Ball F)) :
    burstAll cfg ev { s with balls := l } = { burstAll cfg ev s with balls := l } := by
  induction ev generalizing s with
  | nil => rfl
  | cons p ev ih =>
    simp only [burstAll]
    rw [spawnSparkExplosion_with_balls, ih]

theorem burstAll_balls (cfg : Config F) (ev : List (Vec3 F)) (s : Sim F) :
    (burstAll cfg ev s).balls = s.balls := by
  induction ev generalizing s with
  | nil => rfl
  | cons p ev ih =>
    simp only [burstAll]
    rw [ih, spawnSparkExplosion_balls]

theorem burstAll_append (cfg : Config F) (ev1 ev2 : List (Vec3 F)) (s : Sim F) :
    burstAll cfg (ev1 ++ ev2) s = burstAll cfg ev2 (burstAll cfg ev1 s) := by
  induction ev1 generalizing s with
  | nil => rfl
  | cons p ev ih =>
    simp only [List.cons_append, burstAll]
    exact ih _

/-- Bursts only append sparks. -/
theorem burstAll_sparks (cfg : Config F) (ev : List (Vec3 F)) (s : Sim F) :
    ∃ new : List (Spark F), (burstAll cfg ev s).sparks = s.sparks ++ new := by
  induction ev generalizing s with
  | nil => exact ⟨[], by simp [burstAll]⟩
  | cons p ev ih =>
    simp only [burstAll]
    obtain ⟨new1, h1, -, -⟩ := spawnSparkExplosion_sparks cfg p 15 s
    obtain ⟨new2, h2⟩ := ih (spawnSparkExplosion cfg p 15 s)
    exact ⟨new1 ++ new2, by rw [h2, h1, List.append_assoc]⟩

/-! ## The black-hole scan -/

/-- The black-hole scan from index `pre.length`, on balls `pre ++ rest`, with
enough fuel: it finishes, keeps `pre` and the balls of `rest` at distance at
least 1 from the origin, in order, and appends 20 sparks of life 1 at the
position of every removed ball. -/
theorem consumeLoop_split (cfg : Config F) (rest : List (Ball F)) :
    ∀ (pre : List (Ball F)) (s : Sim F) (fuel : ℕ), s.balls = pre ++ rest →
      rest.length + 1 ≤ fuel →
      ∃ s' : Sim F, consumeLoop cfg fuel pre.length s = some s' ∧
        s'.balls = pre ++ rest.filter (fun b => decide (1 ≤ b.pos.length cfg.sqrt)) ∧
        ∃ new : List (Spark F), s'.sparks = s.sparks ++ new ∧
          new.map (fun sp => sp.pos) =
            (rest.filter (fun b => decide (b.pos.length cfg.sqrt < 1))).flatMap
              (fun b => List.replicate 20 b.pos) ∧
          ∀ sp ∈ new, sp.life = 1 := by
  induction rest with
  | nil =>
    intro pre s fuel hb hf
    obtain ⟨f, rfl⟩ : ∃ f, fuel = f + 1 := ⟨fuel - 1, by omega⟩
    refine ⟨s, ?_, by simpa using hb, [], by simp, by simp, by simp⟩
    unfold consumeLoop
    have : s.balls[pre.length]? = none := by
      rw [hb]; simp
    rw [this]
  | cons b rest ih =>
    intro pre s fuel hb hf
    obtain ⟨f, rfl⟩ : ∃ f, fuel = f + 1 := ⟨fuel - 1, by omega⟩
    have hf' : rest.length + 1 ≤ f := by
      simp only [List.length_cons] at hf; omega
    have hget : s.balls[pre.length]? = some b := by
      rw [hb]; exact getElem?_prefix_cons pre b rest
    unfold consumeLoop
    rw [hget]
    by_cases hlt : b.pos.length cfg.sqrt < 1
    · have hle : ¬ 1 ≤ b.pos.length cfg.sqrt := not_le.2 hlt
      simp only [hlt, if_true]
      obtain ⟨new1, hn1, hn2, hn3⟩ := spawnSparkExplosion_sparks cfg b.pos 20 s
      have hb1 : ({ spawnSparkExplosion cfg b.pos 20 s with
          balls := (spawnSparkExplosion cfg b.pos 20 s).balls.eraseIdx pre.length } :
            Sim F).balls = pre ++ rest := by
        show (spawnSparkExplosion cfg b.pos 20 s).balls.eraseIdx pre.length = pre ++ rest
        rw [spawnSparkExplosion_balls, hb, eraseIdx_prefix_cons]
      obtain ⟨s', h1, h2, new, h3, h4, h5⟩ := ih pre _ f hb1 hf'
      refine ⟨s', h1, ?_, new1 ++ new, ?_, ?_, ?_⟩
      · rw [h2]; simp [hle]
      · rw [h3]
        show (spawnSparkExplosion cfg b.pos 20 s).sparks ++ new = _
        rw [hn1, List.append_assoc]
      · simp [hlt, hn2, h4, List.flatMap_cons]
      · intro sp hsp
        rcases List.mem_append.1 hsp with h | h
        · exact hn3 sp h
        · exact h5 sp h
    · have hle : 1 ≤ b.pos.length cfg.sqrt := not_lt.1 hlt
      simp only [hlt, if_false]
      have hb1 : s.balls = (pre ++ [b]) ++ rest := by
        rw [hb]; simp
      obtain ⟨s', h1, h2, new, h3, h4, h5⟩ := ih (pre ++ [b]) s f hb1 hf'
      have hlen : (pre ++ [b]).length = pre.length + 1 := by simp
      rw [hlen] at h1
      refine ⟨s', h1, ?_, new, h3, ?_, h5⟩
      · rw [h2]; simp [hle]
      · rw [h4]; simp [hlt]

/-- The guarded black-hole scan always finishes, and only appends sparks. -/
theorem consumeScan_sparks (cfg : Config F) (s : Sim F) :
    ∃ (s' : Sim F) (new : List (Spark F)), consumeScan cfg s = some s' ∧
      s'.sparks = s.sparks ++ new := by
  unfold consumeScan
  by_cases hb : cfg.blackHoleMode = true
  · simp only [hb, if_true]
    obtain ⟨s', h1, -, new, h3, -, -⟩ :=
      consumeLoop_split cfg s.balls [] s (s.balls.length + 1) (by simp) (le_refl _)
    exact ⟨s', new, h1, h3⟩
  · simp only [hb]
    exact ⟨s, [], rfl, by simp⟩

/-- More fuel does not change the result of the black-hole scan. -/
theorem consumeLoop_fuel_succ (cfg : Config F) (fuel : ℕ) :
    ∀ (i : ℕ) (s s' : Sim F), consumeLoop cfg fuel i s = some s' →
      consumeLoop cfg (fuel + 1) i s = some s' := by
  induction fuel with
  | zero => intro i s s' h; simp [consumeLoop] at h
  | succ fuel ih =>
    intro i s s' h
    rw [consumeLoop] at h
    rw [consumeLoop]
    cases hb : s.balls[i]? with
    | none => rw [hb] at h; exact h
    | some b =>
      rw [hb] at h
      simp only at h ⊢
      by_cases hlt : b.pos.length cfg.sqrt < 1
      · simp only [hlt, if_true] at h ⊢
        exact ih _ _ _ h
      · simp only [hlt, if_false] at h ⊢
        exact ih _ _ _ h

theorem consumeLoop_fuel_le (cfg : Config F) (i : ℕ) (s s' : Sim F) (fuel : ℕ)
    (h : consumeLoop cfg fuel i s = some s') :
    ∀ fuel' : ℕ, fuel ≤ fuel' → consumeLoop cfg fuel' i s = some s' := by
  intro fuel' hle
  induction hle with
  | refl => exact h
  | step _ ih => exact consumeLoop_fuel_succ cfg _ i s s' ih

/-- C7 (black-hole consumption): when `blackHoleMode` is on, the scan at the
start of `updateSimulation` finishes, with the same result for every amount
of fuel from `balls.size() + 1` on, and leaves exactly the balls whose
distance to the origin is at least 1, in their original order; the spark list
is the old one followed by 20 sparks of life 1 at the position of each removed
ball, removed balls in order.  When `blackHoleMode` is off the scan changes
nothing. -/
theorem consumeScan_spec (cfg : Config F) (s : Sim F) :
    (cfg.blackHoleMode = true →
      ∃ s' : Sim F, consumeScan cfg s = some s' ∧
        (∀ fuel : ℕ, s.balls.length + 1 ≤ fuel → consumeLoop cfg fuel 0 s = some s') ∧
        s'.balls = s.balls.filter (fun b => decide (1 ≤ b.pos.length cfg.sqrt)) ∧
        ∃ new : List (Spark F), s'.sparks = s.sparks ++ new ∧
          new.map (fun sp => sp.pos) =
            (s.balls.filter (fun b => decide (b.pos.length cfg.sqrt < 1))).flatMap
              (fun b => List.replicate 20 b.pos) ∧
          ∀ sp ∈ new, sp.life = 1) ∧
    (cfg.blackHoleMode = false → consumeScan cfg s = some s) := by
  constructor
  · intro hb
    obtain ⟨s', h1, h2, h3⟩ :=
      consumeLoop_split cfg s.balls [] s (s.balls.length + 1) (by simp) (le_refl _)
    have h1' : consumeLoop cfg (s.balls.length + 1) 0 s = some s' := h1
    refine ⟨s', ?_, consumeLoop_fuel_le cfg 0 s s' _ h1', by simpa using h2, h3⟩
    unfold consumeScan
    simp only [hb, if_true]
    exact h1'
  · intro hb
    unfold consumeScan
    simp only [hb]
    rfl

/-- Three balls, the middle one at distance 0.5 from the origin: it is removed
and 20 sparks appear. -/
theorem consumeScan_spec_witness :
    ({ cfg0 with blackHoleMode := true } : Config ℚ).blackHoleMode = true ∧
    ∃ s' : Sim ℚ,
      consumeScan { cfg0 with blackHoleMode := true }
        ⟨[ballAt ℚ 3 0 (1 / 2), ballAt ℚ (1 / 2) 0 (1 / 2), ballAt ℚ 5 0 (1 / 2)], [], 0⟩ = some s' ∧
      s'.balls = [ballAt ℚ 3 0 (1 / 2), ballAt ℚ 5 0 (1 / 2)] ∧ s'.sparks.length = 20 := by
  refine ⟨rfl, ?_⟩
  obtain ⟨s', h1, -, h2, new, h3, h4, -⟩ :=
    (consumeScan_spec { cfg0 with blackHoleMode := true }
      ⟨[ballAt ℚ 3 0 (1 / 2), ballAt ℚ (1 / 2) 0 (1 / 2), ballAt ℚ 5 0 (1 / 2)], [], 0⟩).1 rfl
  refine ⟨s', h1, ?_, ?_⟩
  · rw [h2]; decide!
  · have hlen := congrArg List.length h4
    rw [List.length_map] at hlen
    rw [h3, List.length_append, hlen]
    decide!

/-! ## `handleCollisions` and the order of its work -/

theorem resolveAgainst_length (cfg : Config F) (rest : List (Ball F)) :
    ∀ A : Ball F, (resolveAgainst cfg A rest).2.1.length = rest.length := by
  induction rest with
  | nil => intro A; rfl
  | cons B rest ih =>
    intro A
    simp only [resolveAgainst, List.length_cons, ih]

/-- The state after one iteration of the ball-to-ball loop, for the balls
`A` at index `pre.length` and `B` behind `mid`. -/
theorem ballToBall_split (cfg : Config F) (pre mid rest : List (Ball F)) (A B : Ball F)
    (s : Sim F) (hb : s.balls = pre ++ A :: (mid ++ B :: rest)) :
    ballToBall cfg pre.length (pre.length + 1 + mid.length) s =
      burstAll cfg (collidePair cfg A B).2.2.toList
        { s with balls := pre ++ (collidePair cfg A B).1 ::
            (mid ++ (collidePair cfg A B).2.1 :: rest) } := by
  have hi : s.balls[pre.length]? = some A := by
    rw [hb]; exact getElem?_prefix_cons pre A _
  have hb2 : s.balls = (pre ++ A :: mid) ++ B :: rest := by
    rw [hb]; simp
  have hlen : (pre ++ A :: mid).length = pre.length + 1 + mid.length := by
    simp; omega
  have hj : s.balls[pre.length + 1 + mid.length]? = some B := by
    rw [hb2, ← hlen]; exact getElem?_prefix_cons _ B rest
  have hset : ∀ A1 B1 : Ball F, (s.balls.set pre.length A1).set (pre.length + 1 + mid.length) B1 =
      pre ++ A1 :: (mid ++ B1 :: rest) := by
    intro A1 B1
    rw [hb, set_prefix_cons]
    have : pre ++ A1 :: (mid ++ B :: rest) = (pre ++ A1 :: mid) ++ B :: rest := by simp
    have hlen1 : (pre ++ A1 :: mid).length = pre.length + 1 + mid.length := by
      simp; omega
    rw [this, ← hlen1, set_prefix_cons]
    simp
  unfold ballToBall
  rw [hi, hj]
  simp only [hset]
  cases (collidePair cfg A B).2.2 with
  | none => rfl
  | some p => rfl

/-- The ball-to-ball loop of iteration `pre.length`, from the ball behind
`mid` on, does what `resolveAgainst` describes. -/
theorem pairLoop_split (cfg : Config F) (rest : List (Ball F)) :
    ∀ (pre mid : List (Ball F)) (A : Ball F) (s : Sim F),
      s.balls = pre ++ A :: (mid ++ rest) →
      pairLoop cfg pre.length rest.length (pre.length + 1 + mid.length) s =
        burstAll cfg (resolveAgainst cfg A rest).2.2
          { s with balls := pre ++ (resolveAgainst cfg A rest).1 ::
              (mid ++ (resolveAgainst cfg A rest).2.1) } := by
  induction rest with
  | nil =>
    intro pre mid A s hb
    simp only [List.length_nil, pairLoop, resolveAgainst, burstAll]
    rw [← hb]
  | cons B rest ih =>
    intro pre mid A s hb
    simp only [List.length_cons, pairLoop, resolveAgainst]
    rw [ballToBall_split cfg pre mid rest A B s hb]
    have hlen : pre.length + 1 + mid.length + 1 =
        pre.length + 1 + (mid ++ [(collidePair cfg A B).2.1]).length := by
      simp; omega
    rw [hlen, ih pre (mid ++ [(collidePair cfg A B).2.1]) (collidePair cfg A B).1 _
      (by rw [burstAll_balls]; simp)]
    rw [burstAll_append, ← burstAll_with_balls]
    simp

theorem wallStep_split (cfg : Config F) (pre rest : List (Ball F)) (A : Ball F) (s : Sim F)
    (hb : s.balls = pre ++ A :: rest) :
    wallStep cfg pre.length s = { s with balls := pre ++ wallCollisions cfg A :: rest } := by
  unfold wallStep
  rw [hb, getElem?_prefix_cons]
  simp only [set_prefix_cons]

theorem interleavedFrom_length (cfg : Config F) (n : ℕ) :
    ∀ balls : List (Ball F), (interleavedFrom cfg n balls).1.length = balls.length := by
  induction n with
  | zero => intro balls; rfl
  | succ n ih =>
    intro balls
    cases balls with
    | nil => rfl
    | cons A rest =>
      simp only [interleavedFrom, List.length_cons, ih, resolveAgainst_length]

/-- The outer loop of `handleCollisions` from index `pre.length` on does what
`interleavedFrom` describes. -/
theorem bodyLoop_split (cfg : Config F) (n : ℕ) :
    ∀ (pre rest : List (Ball F)) (s : Sim F), s.balls = pre ++ rest → rest.length = n →
      bodyLoop cfg n pre.length s =
        burstAll cfg (interleavedFrom cfg n rest).2
          { s with balls := pre ++ (interleavedFrom cfg n rest).1 } := by
  induction n with
  | zero =>
    intro pre rest s hb hn
    simp only [bodyLoop, interleavedFrom, burstAll]
    rw [← hb]
  | succ n ih =>
    intro pre rest s hb hn
    cases rest with
    | nil => simp at hn
    | cons A rest =>
      have hn' : rest.length = n := by simpa using hn
      simp only [bodyLoop, interleavedFrom]
      rw [wallStep_split cfg pre rest A s hb]
      have hcount : (pre ++ wallCollisions cfg A :: rest).length - (pre.length + 1) =
          rest.length := by
        simp; omega
      have hstart : pre.length + 1 = pre.length + 1 + ([] : List (Ball F)).length := by simp
      simp only [hcount]
      rw [hstart, pairLoop_split cfg rest pre [] (wallCollisions cfg A) _ (by simp)]
      have hlen : pre.length + 1 + ([] : List (Ball F)).length =
          (pre ++ [(resolveAgainst cfg (wallCollisions cfg A) rest).1]).length := by simp
      rw [hlen, ih (pre ++ [(resolveAgainst cfg (wallCollisions cfg A) rest).1])
        (resolveAgainst cfg (wallCollisions cfg A) rest).2.1 _
        (by rw [burstAll_balls]; simp)
        (by rw [resolveAgainst_length]; exact hn')]
      rw [burstAll_append, ← burstAll_with_balls]
      simp

/-- The index loops of `handleCollisions` compute the interleaved description. -/
theorem handleCollisions_eq_interleaved (cfg : Config F) (s : Sim F) :
    handleCollisions cfg s = interleavedCollisions cfg s := by
  unfold handleCollisions interleavedCollisions
  have h := bodyLoop_split cfg s.balls.length [] s.balls s (by simp) rfl
  simpa using h

/-- The collision pass keeps the number of balls. -/
theorem handleCollisions_length (cfg : Config F) (s : Sim F) :
    (handleCollisions cfg s).balls.length = s.balls.length := by
  rw [handleCollisions_eq_interleaved]
  unfold interleavedCollisions
  rw [burstAll_balls, interleavedFrom_length]

/-- The collision pass only appends sparks. -/
theorem handleCollisions_sparks (cfg : Config F) (s : Sim F) :
    ∃ new : List (Spark F), (handleCollisions cfg s).sparks = s.sparks ++ new := by
  rw [handleCollisions_eq_interleaved]
  unfold interleavedCollisions
  exact burstAll_sparks cfg _ _

/-- C10 as stated fails: two balls of radius 0.5 at rest at `x = 9` and
`x = 10.5` in the box of half-extent 10.  `handleCollisions` tests the pair
before the second ball has been brought back inside (distance 1.5, no contact)
and ends with centres at 9 and 9.5; the two-pass order brings the second ball
to 9.5 first, finds the pair in contact (distance 0.5) and ends with 8.75 and
9.75.  The two square roots taken are exact. -/
theorem handleCollisions_ne_twoPass :
    qsqrt (9 / 4) = 3 / 2 ∧ qsqrt (1 / 4) = 1 / 2 ∧
    (handleCollisions cfg0 ⟨[ballAt ℚ 9 0 (1 / 2), ballAt ℚ (21 / 2) 0 (1 / 2)], [], 0⟩).balls.map
        (fun b => b.pos) = [⟨9, 0, 0⟩, ⟨19 / 2, 0, 0⟩] ∧
    (twoPassCollisions cfg0
        ⟨[ballAt ℚ 9 0 (1 / 2), ballAt ℚ (21 / 2) 0 (1 / 2)], [], 0⟩).balls.map
        (fun b => b.pos) = [⟨35 / 4, 0, 0⟩, ⟨39 / 4, 0, 0⟩] ∧
    (handleCollisions cfg0 ⟨[ballAt ℚ 9 0 (1 / 2), ballAt ℚ (21 / 2) 0 (1 / 2)], [], 0⟩).balls ≠
      (twoPassCollisions cfg0
        ⟨[ballAt ℚ 9 0 (1 / 2), ballAt ℚ (21 / 2) 0 (1 / 2)], [], 0⟩).balls := by
  decide!

/-- C10, as the code orders the work: `handleCollisions` gives the same
final balls (positions and velocities) as the interleaved description, in
which each ball in index order gets its wall step and is then resolved
against every later ball in index order, so that the wall step of a ball
comes after its pair resolutions with all earlier balls; the sparks are the
bursts of 15 at the recorded contact points, in order. -/
theorem handleCollisions_interleaved (cfg : Config F) (s : Sim F) :
    (handleCollisions cfg s).balls = (interleavedFrom cfg s.balls.length s.balls).1 ∧
    handleCollisions cfg s = interleavedCollisions cfg s := by
  have h := handleCollisions_eq_interleaved cfg s
  refine ⟨?_, h⟩
  rw [h]
  unfold interleavedCollisions
  rw [burstAll_balls]

/-! ## Wall containment -/

/-- After the wall step of one axis the coordinate is within the box, when
the radius is at most the full width of the box. -/
theorem wallAxis_abs_le (cfg : Config F) (radius coord vel : F) (h0 : 0 ≤ radius)
    (h2 : radius ≤ 2 * cfg.boxSize) : |(wallAxis cfg radius coord vel).1| ≤ cfg.boxSize := by
  unfold wallAxis
  by_cases ha : coord - radius < -cfg.boxSize
  · by_cases hb : -cfg.boxSize + radius + radius > cfg.boxSize
    · simp only [ha, hb, if_true, abs_le]
      constructor <;> linarith
    · simp only [ha, hb, if_true, if_false, abs_le]
      constructor <;> linarith
  · by_cases hb : coord + radius > cfg.boxSize
    · simp only [ha, hb, if_true, if_false, abs_le]
      constructor <;> linarith
    · simp only [ha, hb, if_false, abs_le]
      constructor <;> linarith

theorem wallCollisions_insideBox (cfg : Config F) (A : Ball F) (h0 : 0 ≤ A.radius)
    (h2 : A.radius ≤ 2 * cfg.boxSize) : insideBox cfg (wallCollisions cfg A) :=
  ⟨wallAxis_abs_le cfg _ _ _ h0 h2, wallAxis_abs_le cfg _ _ _ h0 h2,
    wallAxis_abs_le cfg _ _ _ h0 h2⟩

theorem wallCollisions_radius (cfg : Config F) (A : Ball F) :
    (wallCollisions cfg A).radius = A.radius := rfl

/-- Resolving a ball against later ones leaves the radii of the later ones
as they were. -/
theorem resolveAgainst_radius (cfg : Config F) (P : F → Prop) (rest : List (Ball F)) :
    ∀ A : Ball F, (∀ a ∈ rest, P a.radius) →
      ∀ a ∈ (resolveAgainst cfg A rest).2.1, P a.radius := by
  induction rest with
  | nil => intro A _ a ha; simp [resolveAgainst] at ha
  | cons B rest ih =>
    intro A h a ha
    simp only [resolveAgainst, List.mem_cons] at ha
    rcases ha with ha | ha
    · rw [ha, (collidePair_radius_mass cfg A B).2.1]
      exact h B (List.mem_cons_self _ _)
    · exact ih _ (fun a ha => h a (List.mem_cons_of_mem _ ha)) a ha

/-- The last ball of the interleaved description comes straight out of its
wall step, so it is inside the box. -/
theorem interleavedFrom_last_insideBox (cfg : Config F) (n : ℕ) :
    ∀ balls : List (Ball F), balls.length = n →
      (∀ a ∈ balls, 0 < a.radius ∧ a.radius ≤ 2 * cfg.boxSize) →
      ∀ b : Ball F, (interleavedFrom cfg n balls).1.getLast? = some b → insideBox cfg b := by
  induction n with
  | zero =>
    intro balls hn _ b hb
    have : balls = [] := List.length_eq_zero.1 hn
    subst this
    simp [interleavedFrom] at hb
  | succ n ih =>
    intro balls hn hr b hb
    cases balls with
    | nil => simp at hn
    | cons A rest =>
      have hn' : rest.length = n := by simpa using hn
      simp only [interleavedFrom] at hb
      cases rest with
      | nil =>
        have hn0 : n = 0 := by simpa using hn'.symm
        subst hn0
        simp only [resolveAgainst, interleavedFrom, List.getLast?_singleton,
          Option.some.injEq] at hb
        rw [← hb]
        have hA := hr A (List.mem_cons_self _ _)
        exact wallCollisions_insideBox cfg A (le_of_lt hA.1) hA.2
      | cons B rest =>
        have hlen : (resolveAgainst cfg (wallCollisions cfg A) (B :: rest)).2.1.length = n := by
          rw [resolveAgainst_length]; exact hn'
        have hne : (interleavedFrom cfg n
            (resolveAgainst cfg (wallCollisions cfg A) (B :: rest)).2.1).1 ≠ [] := by
          intro h0
          have := interleavedFrom_length cfg n
            (resolveAgainst cfg (wallCollisions cfg A) (B :: rest)).2.1
          rw [h0, hlen] at this
          rw [← hn'] at this
          simp at this
        rw [getLast?_cons_ne_nil _ hne] at hb
        refine ih _ hlen ?_ b hb
        exact resolveAgainst_radius cfg (fun r => 0 < r ∧ r ≤ 2 * cfg.boxSize) (B :: rest) _
          (fun a ha => hr a (List.mem_cons_of_mem _ ha))

/-- A ball in contact with none of the later balls leaves them, and itself,
as they were, and spawns nothing. -/
theorem resolveAgainst_no_contact (cfg : Config F) (A : Ball F) (rest : List (Ball F))
    (h : ∀ B ∈ rest, ¬ inContact cfg A B) : resolveAgainst cfg A rest = (A, rest, []) := by
  induction rest with
  | nil => rfl
  | cons B rest ih =>
    have hB := collidePair_of_not_inContact cfg A B (h B (List.mem_cons_self _ _))
    have hrest := ih (fun C hC => h C (List.mem_cons_of_mem _ hC))
    simp only [resolveAgainst, hB, hrest, Option.toList, List.nil_append]

/-- When no ball, after its wall step, is in contact with a later ball, the
interleaved description is the wall step of every ball. -/
theorem interleavedFrom_no_contact (cfg : Config F) (n : ℕ) :
    ∀ balls : List (Ball F), balls.length = n →
      balls.Pairwise (fun a b => ¬ inContact cfg (wallCollisions cfg a) b) →
      interleavedFrom cfg n balls = (balls.map (wallCollisions cfg), []) := by
  induction n with
  | zero =>
    intro balls hn _
    have : balls = [] := List.length_eq_zero.1 hn
    subst this
    rfl
  | succ n ih =>
    intro balls hn hp
    cases balls with
    | nil => simp at hn
    | cons A rest =>
      have hn' : rest.length = n := by simpa using hn
      rw [List.pairwise_cons] at hp
      have h1 := resolveAgainst_no_contact cfg (wallCollisions cfg A) rest hp.1
      simp only [interleavedFrom, h1, ih rest hn' hp.2, List.map_cons, List.append_nil]

/-- C1 as stated fails.  First, a ball-to-ball correction after the wall step
pushes a ball out: in the box of half-extent 10, a ball of radius 0.5 at
`x = 9.5` followed by a ball of radius 0.75 at `x = 9.375` (distance 0.125, the
square root taken is exact) ends `handleCollisions` at `x = 10.0625`.  Second,
the wall step alone leaves a ball of radius 21 at the origin at `-11` on every
axis. -/
theorem handleCollisions_not_contained :
    qsqrt (1 / 64) = 1 / 8 ∧
    (handleCollisions cfg0
        ⟨[ballAt ℚ (19 / 2) 0 (1 / 2), ballAt ℚ (75 / 8) 0 (3 / 4)], [], 0⟩).balls.map
        (fun b => b.pos) = [⟨161 / 16, 0, 0⟩, ⟨141 / 16, 0, 0⟩] ∧
    (∃ b ∈ (handleCollisions cfg0
        ⟨[ballAt ℚ (19 / 2) 0 (1 / 2), ballAt ℚ (75 / 8) 0 (3 / 4)], [], 0⟩).balls,
      ¬ insideBox cfg0 b) ∧
    (handleCollisions cfg0 ⟨[ballAt ℚ 0 0 21], [], 0⟩).balls.map (fun b => b.pos) =
      [⟨-11, -11, -11⟩] ∧
    (∃ b ∈ (handleCollisions cfg0 ⟨[ballAt ℚ 0 0 21], [], 0⟩).balls, ¬ insideBox cfg0 b) := by
  decide!

/-- C1, as the code guarantees it: for a ball of radius `> 0` and at most
`2 * boxSize`, right after its wall step in `handleCollisions` every
coordinate `c` of its centre satisfies `|c| ≤ boxSize`.  When all balls have
such radii, at the end of `handleCollisions` this holds for the last ball of
the list, which no ball-to-ball correction moves after its wall step, and it
holds for every ball when no ball, after its wall step, is found in contact
with a later ball (`handleCollisions` is then the wall step of every ball). -/
theorem wall_containment (cfg : Config F) :
    (∀ A : Ball F, 0 < A.radius → A.radius ≤ 2 * cfg.boxSize →
      insideBox cfg (wallCollisions cfg A)) ∧
    (∀ s : Sim F, (∀ a ∈ s.balls, 0 < a.radius ∧ a.radius ≤ 2 * cfg.boxSize) →
      ∀ b : Ball F, (handleCollisions cfg s).balls.getLast? = some b → insideBox cfg b) ∧
    (∀ s : Sim F, (∀ a ∈ s.balls, 0 < a.radius ∧ a.radius ≤ 2 * cfg.boxSize) →
      s.balls.Pairwise (fun a b => ¬ inContact cfg (wallCollisions cfg a) b) →
      (handleCollisions cfg s).balls = s.balls.map (wallCollisions cfg) ∧
      ∀ b ∈ (handleCollisions cfg s).balls, insideBox cfg b) := by
  refine ⟨?_, ?_, ?_⟩
  · intro A h0 h2
    exact wallCollisions_insideBox cfg A (le_of_lt h0) h2
  · intro s hr b hb
    rw [handleCollisions_eq_interleaved] at hb
    unfold interleavedCollisions at hb
    rw [burstAll_balls] at hb
    exact interleavedFrom_last_insideBox cfg s.balls.length s.balls rfl hr b hb
  · intro s hr hp
    have hballs : (handleCollisions cfg s).balls = s.balls.map (wallCollisions cfg) := by
      rw [handleCollisions_eq_interleaved]
      unfold interleavedCollisions
      rw [burstAll_balls, interleavedFrom_no_contact cfg s.balls.length s.balls rfl hp]
    refine ⟨hballs, fun b hb => ?_⟩
    rw [hballs, List.mem_map] at hb
    obtain ⟨a, ha, rfl⟩ := hb
    exact wallCollisions_insideBox cfg a (le_of_lt (hr a ha).1) (hr a ha).2

/-- The three parts on concrete balls in the box of half-extent 10: a ball at
`x = 12`, the last ball of an overlapping pair, and two balls far apart. -/
theorem wall_containment_witness :
    ((0 : ℚ) < (ballAt ℚ 12 0 (1 / 2)).radius ∧
      (ballAt ℚ 12 0 (1 / 2)).radius ≤ 2 * cfg0.boxSize ∧
      insideBox cfg0 (wallCollisions cfg0 (ballAt ℚ 12 0 (1 / 2)))) ∧
    ((∀ a ∈ [ballAt ℚ (19 / 2) 0 (1 / 2), ballAt ℚ (75 / 8) 0 (3 / 4)],
        0 < a.radius ∧ a.radius ≤ 2 * cfg0.boxSize) ∧
      ∀ b : Ball ℚ, (handleCollisions cfg0
          ⟨[ballAt ℚ (19 / 2) 0 (1 / 2), ballAt ℚ (75 / 8) 0 (3 / 4)], [], 0⟩).balls.getLast? =
          some b → insideBox cfg0 b) ∧
    ([ballAt ℚ 12 0 (1 / 2), ballAt ℚ 0 0 (3 / 4)].Pairwise
        (fun a b => ¬ inContact cfg0 (wallCollisions cfg0 a) b) ∧
      ∀ b ∈ (handleCollisions cfg0 ⟨[ballAt ℚ 12 0 (1 / 2), ballAt ℚ 0 0 (3 / 4)], [], 0⟩).balls,
        insideBox cfg0 b) :=
  ⟨⟨by decide!, by decide!,
      (wall_containment cfg0).1 (ballAt ℚ 12 0 (1 / 2)) (by decide!) (by decide!)⟩,
    ⟨by decide!,
      (wall_containment cfg0).2.1
        ⟨[ballAt ℚ (19 / 2) 0 (1 / 2), ballAt ℚ (75 / 8) 0 (3 / 4)], [], 0⟩ (by decide!)⟩,
    ⟨by decide!,
      ((wall_containment cfg0).2.2 ⟨[ballAt ℚ 12 0 (1 / 2), ballAt ℚ 0 0 (3 / 4)], [], 0⟩
        (by decide!) (by decide!)).2⟩⟩

/-! ## The simulation step: totality, pause, spark decay -/

/-- The sparks that survive an update by `dt`: every spark updated, those
whose life is still positive kept, in order. -/
theorem sparkLoop_split (cfg : Config F) (dt : F) (rest : List (Spark F)) :
    ∀ (pre : List (Spark F)) (fuel : ℕ), rest.length + 1 ≤ fuel →
      sparkLoop cfg dt fuel pre.length (pre ++ rest) =
        some (pre ++ (rest.map (Spark.update cfg dt)).filter (fun sp => decide (0 < sp.life))) := by
  induction rest with
  | nil =>
    intro pre fuel hf
    obtain ⟨f, rfl⟩ : ∃ f, fuel = f + 1 := ⟨fuel - 1, by omega⟩
    unfold sparkLoop
    simp
  | cons sp rest ih =>
    intro pre fuel hf
    obtain ⟨f, rfl⟩ : ∃ f, fuel = f + 1 := ⟨fuel - 1, by omega⟩
    have hf' : rest.length + 1 ≤ f := by
      simp only [List.length_cons] at hf; omega
    unfold sparkLoop
    rw [getElem?_prefix_cons]
    simp only [set_prefix_cons]
    by_cases hle : (Spark.update cfg dt sp).life ≤ 0
    · have hlt : ¬ 0 < (Spark.update cfg dt sp).life := not_lt.2 hle
      simp only [hle, if_true, eraseIdx_prefix_cons]
      rw [ih pre f hf']
      simp [hlt]
    · have hlt : 0 < (Spark.update cfg dt sp).life := not_le.1 hle
      simp only [hle, if_false]
      have h1 : pre ++ Spark.update cfg dt sp :: rest = (pre ++ [Spark.update cfg dt sp]) ++ rest := by
        simp
      have h2 : pre.length + 1 = (pre ++ [Spark.update cfg dt sp]).length := by simp
      rw [h1, h2, ih _ f hf']
      simp [hlt]

/-- A running step always returns, and its sparks are the sparks it started
with, followed by those spawned during the step, all updated by `dt`, with the
ones whose life is no longer positive removed. -/
theorem updateSimulation_running (cfg : Config F) (dt : F) (s : Sim F)
    (hp : cfg.paused = false) :
    ∃ (s' : Sim F) (new : List (Spark F)), updateSimulation cfg dt s = some s' ∧
      s'.sparks = ((s.sparks ++ new).map (Spark.update cfg dt)).filter
        (fun sp => decide (0 < sp.life)) := by
  obtain ⟨s1, new1, h1, h2⟩ := consumeScan_sparks cfg s
  obtain ⟨new2, h3⟩ := handleCollisions_sparks cfg
    ⟨(updateBalls cfg dt s1.balls s1.seed).1, s1.sparks, (updateBalls cfg dt s1.balls s1.seed).2⟩
  have h4 := sparkLoop_split cfg dt
    (handleCollisions cfg ⟨(updateBalls cfg dt s1.balls s1.seed).1, s1.sparks,
      (updateBalls cfg dt s1.balls s1.seed).2⟩).sparks [] _ (le_refl _)
  simp only [List.length_nil, List.nil_append] at h4
  unfold updateSimulation
  simp only [hp, h1, Option.some_bind, h4, Option.map_some']
  refine ⟨_, new1 ++ new2, rfl, ?_⟩
  dsimp only
  rw [h3]
  dsimp only
  rw [h2, List.append_assoc]

/-- The step function is total: with the fuel it hands to its two scanning
loops, `updateSimulation` always returns a state. -/
theorem updateSimulation_isSome (cfg : Config F) (dt : F) (s : Sim F) :
    (updateSimulation cfg dt s).isSome = true := by
  cases hp : cfg.paused with
  | true =>
    unfold updateSimulation
    simp [hp]
  | false =>
    obtain ⟨s', -, h, -⟩ := updateSimulation_running cfg dt s hp
    rw [h]; rfl

/-- C4 (pause invariance): when `paused` is true, `updateSimulation(dt)`
returns with the state (balls, sparks, and the draw count) equal to the state
before the call, for every state and every `dt`; hence any number of paused
steps leaves the state unchanged. -/
theorem updateSimulation_paused (cfg : Config F) (dt : F) (s : Sim F)
    (h : cfg.paused = true) :
    updateSimulation cfg dt s = some s ∧ ∀ n : ℕ, runSteps cfg dt n s = some s := by
  have h1 : updateSimulation cfg dt s = some s := by
    unfold updateSimulation
    simp only [h, if_true]
  refine ⟨h1, fun n => ?_⟩
  induction n with
  | zero => rfl
  | succ n ih =>
    show (updateSimulation cfg dt s).bind (runSteps cfg dt n) = some s
    rw [h1]
    exact ih

/-- Five paused steps on a state with one ball and one spark. -/
theorem updateSimulation_paused_witness :
    ({ cfg0 with paused := true } : Config ℚ).paused = true ∧
    runSteps { cfg0 with paused := true } (1 / 10) 5
      ⟨[ballAt ℚ 3 1 (1 / 2)], [(Spark.new cfg0 ⟨0, 0, 0⟩ ⟨1, 1, 1⟩ 0).1], 4⟩ =
      some ⟨[ballAt ℚ 3 1 (1 / 2)], [(Spark.new cfg0 ⟨0, 0, 0⟩ ⟨1, 1, 1⟩ 0).1], 4⟩ :=
  ⟨rfl, (updateSimulation_paused { cfg0 with paused := true } (1 / 10)
    ⟨[ballAt ℚ 3 1 (1 / 2)], [(Spark.new cfg0 ⟨0, 0, 0⟩ ⟨1, 1, 1⟩ 0).1], 4⟩ rfl).2 5⟩

theorem Spark.iterate_update_life (cfg : Config F) (dt : F) (k : ℕ) :
    ∀ sp : Spark F, ((Spark.update cfg dt)^[k] sp).life = sp.life - k * dt := by
  induction k with
  | zero => intro sp; simp
  | succ k ih =>
    intro sp
    rw [Function.iterate_succ_apply, ih]
    show sp.life - dt - k * dt = sp.life - ((k + 1 : ℕ) : F) * dt
    push_cast
    ring

/-- A spark whose life stays positive through `k` running steps is still in
the spark list after them, updated `k` times. -/
theorem runSteps_spark_alive (cfg : Config F) (dt : F) (hp : cfg.paused = false)
    (hdt : 0 ≤ dt) (k : ℕ) :
    ∀ (s : Sim F) (sp : Spark F), sp ∈ s.sparks → 0 < sp.life - k * dt →
      ∃ s' : Sim F, runSteps cfg dt k s = some s' ∧
        (Spark.update cfg dt)^[k] sp ∈ s'.sparks := by
  induction k with
  | zero => intro s sp hmem _; exact ⟨s, rfl, hmem⟩
  | succ k ih =>
    intro s sp hmem hlife
    obtain ⟨s1, new, h1, h2⟩ := updateSimulation_running cfg dt s hp
    have hk : (0 : F) ≤ k * dt := mul_nonneg (Nat.cast_nonneg k) hdt
    have hcast : ((k + 1 : ℕ) : F) = (k : F) + 1 := by push_cast; ring
    rw [hcast] at hlife
    have hl1 : 0 < (Spark.update cfg dt sp).life := by
      show 0 < sp.life - dt
      linarith
    have hm1 : Spark.update cfg dt sp ∈ s1.sparks := by
      rw [h2, List.mem_filter]
      exact ⟨List.mem_map_of_mem _ (List.mem_append_left _ hmem), by simpa using hl1⟩
    have hl2 : 0 < (Spark.update cfg dt sp).life - k * dt := by
      show 0 < sp.life - dt - k * dt
      linarith
    obtain ⟨s', h3, h4⟩ := ih s1 (Spark.update cfg dt sp) hm1 hl2
    refine ⟨s', ?_, ?_⟩
    · show (updateSimulation cfg dt s).bind (runSteps cfg dt k) = some s'
      rw [h1]; exact h3
    · rw [Function.iterate_succ_apply]; exact h4

/-- After at least one running step every spark in the list has positive life. -/
theorem runSteps_sparks_pos (cfg : Config F) (dt : F) (hp : cfg.paused = false) (k : ℕ) :
    ∀ s : Sim F, ∃ s' : Sim F, runSteps cfg dt (k + 1) s = some s' ∧
      ∀ t ∈ s'.sparks, 0 < t.life := by
  induction k with
  | zero =>
    intro s
    obtain ⟨s1, new, h1, h2⟩ := updateSimulation_running cfg dt s hp
    refine ⟨s1, ?_, ?_⟩
    · show (updateSimulation cfg dt s).bind (runSteps cfg dt 0) = some s1
      rw [h1]; rfl
    · intro t ht
      rw [h2, List.mem_filter] at ht
      simpa using ht.2
  | succ k ih =>
    intro s
    obtain ⟨s1, new, h1, -⟩ := updateSimulation_running cfg dt s hp
    obtain ⟨s', h3, h4⟩ := ih s1
    refine ⟨s', ?_, h4⟩
    show (updateSimulation cfg dt s).bind (runSteps cfg dt (k + 1)) = some s'
    rw [h1]; exact h3

/-- C6 (spark decay and removal): with exact arithmetic, a spark of life 1
in the spark list, stepped by `updateSimulation` (not paused) with `dt = 0.1`,
is still in the list after each of the first 9 steps, with life `1 - k/10`
after `k` of them, and is no longer in the list after the 10th step, its life
having reached 0. -/
theorem spark_decay_removed (cfg : Config F) (hp : cfg.paused = false) (s : Sim F)
    (sp : Spark F) (hmem : sp ∈ s.sparks) (hlife : sp.life = 1) :
    (∀ k : ℕ, k ≤ 9 → ∃ s' : Sim F, runSteps cfg (1 / 10) k s = some s' ∧
        (Spark.update cfg (1 / 10))^[k] sp ∈ s'.sparks ∧
        ((Spark.update cfg (1 / 10))^[k] sp).life = 1 - k / 10 ∧
        0 < ((Spark.update cfg (1 / 10))^[k] sp).life) ∧
    (∃ s' : Sim F, runSteps cfg (1 / 10) 10 s = some s' ∧
        ((Spark.update cfg (1 / 10))^[10] sp).life = 0 ∧
        (Spark.update cfg (1 / 10))^[10] sp ∉ s'.sparks) := by
  have hdt : (0 : F) ≤ 1 / 10 := by norm_num
  constructor
  · intro k hk
    have hkF : (k : F) ≤ 9 := by exact_mod_cast hk
    have hpos : 0 < sp.life - k * (1 / 10) := by
      rw [hlife]; linarith
    obtain ⟨s', h1, h2⟩ := runSteps_spark_alive cfg (1 / 10) hp hdt k s sp hmem hpos
    refine ⟨s', h1, h2, ?_, ?_⟩
    · rw [Spark.iterate_update_life, hlife]; ring
    · rw [Spark.iterate_update_life]; exact hpos
  · obtain ⟨s', h1, h2⟩ := runSteps_sparks_pos cfg (1 / 10) hp 9 s
    have h0 : ((Spark.update cfg (1 / 10))^[10] sp).life = 0 := by
      rw [Spark.iterate_update_life, hlife]; norm_num
    refine ⟨s', h1, h0, fun hin => ?_⟩
    have := h2 _ hin
    rw [h0] at this
    exact lt_irrefl _ this

/-- A fresh spark in the initial configuration is gone after ten steps of
`dt = 0.1`. -/
theorem spark_decay_removed_witness :
    cfg0.paused = false ∧
    (Spark.new cfg0 ⟨0, 5, 0⟩ ⟨1, 1, 1⟩ 0).1.life = 1 ∧
    ∃ s' : Sim ℚ,
      runSteps cfg0 (1 / 10) 10
        ⟨[ballAt ℚ 3 1 (1 / 2)], [(Spark.new cfg0 ⟨0, 5, 0⟩ ⟨1, 1, 1⟩ 0).1], 4⟩ = some s' ∧
      ((Spark.update cfg0 (1 / 10))^[10] (Spark.new cfg0 ⟨0, 5, 0⟩ ⟨1, 1, 1⟩ 0).1).life = 0 ∧
      (Spark.update cfg0 (1 / 10))^[10] (Spark.new cfg0 ⟨0, 5, 0⟩ ⟨1, 1, 1⟩ 0).1 ∉ s'.sparks :=
  ⟨rfl, rfl,
    (spark_decay_removed cfg0 rfl
      ⟨[ballAt ℚ 3 1 (1 / 2)], [(Spark.new cfg0 ⟨0, 5, 0⟩ ⟨1, 1, 1⟩ 0).1], 4⟩
      (Spark.new cfg0 ⟨0, 5, 0⟩ ⟨1, 1, 1⟩ 0).1 (List.mem_singleton.2 rfl) rfl).2⟩

/-! ## `Ball::update` -/

/-- The point passed to `Trail::add` is the last point of the trail afterwards,
whatever the length of the trail. -/
theorem Trail.add_getLast {G : Type} (t : Trail G) (p : Vec3 G) :
    (t.add p).points.getLast? = some p := by
  unfold Trail.add
  by_cases h : (t.points ++ [p]).length > 30
  · rw [if_pos h]
    have hne : t.points ≠ [] := by
      intro hnil
      rw [hnil] at h
      simp at h
    show (t.points ++ [p]).tail.getLast? = some p
    rw [List.tail_append_of_ne_nil hne]
    simp
  · rw [if_neg h]
    simp

/-- With all modes off the velocity before the jitter is `v1`. -/
theorem Ball.update_gravity_friction (cfg : Config F) (dt : F) (b : Ball F) :
    (b.vel + (⟨0, cfg.globalGravity, 0⟩ : Vec3 F) * dt) * (1 - cfg.globalFriction * dt) =
      Ball.dampedVelocity cfg dt b := by
  unfold Ball.dampedVelocity
  rw [Vec3.ext_iff3]
  simp only [Vec3.add_x, Vec3.add_y, Vec3.add_z, Vec3.mul_x, Vec3.mul_y, Vec3.mul_z, zero_mul,
    and_self]

/-- C11 (integration order of `Ball::update`, all modes off): the new position
is `pos + v1 * dt` with `v1 = (vel + (0, g * dt, 0)) * (1 - f * dt)`; the new
trail is the old one after `Trail::add` of exactly that position, which is its
last point; the final velocity is `v1` plus the three jitter terms, so the
jitter enters after the position has been integrated, and the position and
trail are the same for every `rand()` stream and draw count; with
`entropyLevel = 0` the final velocity is `v1`.  Three draws are made. -/
theorem Ball.update_order (cfg : Config F) (dt : F) (b : Ball F) (seed : ℕ)
    (hbh : cfg.blackHoleMode = false) (hcg : cfg.cursorGravityMode = false)
    (hwm : cfg.wallsAreMagnetic = false) :
    (Ball.update cfg dt b seed).1.pos = b.pos + Ball.dampedVelocity cfg dt b * dt ∧
    (Ball.update cfg dt b seed).1.trail =
      b.trail.add (b.pos + Ball.dampedVelocity cfg dt b * dt) ∧
    (Ball.update cfg dt b seed).1.trail.points.getLast? =
      some (b.pos + Ball.dampedVelocity cfg dt b * dt) ∧
    (Ball.update cfg dt b seed).1.vel =
      ⟨(Ball.dampedVelocity cfg dt b).x + jitter (cfg.rnd seed) * cfg.entropyLevel * 100 * dt,
       (Ball.dampedVelocity cfg dt b).y +
         jitter (cfg.rnd (seed + 1)) * cfg.entropyLevel * 100 * dt,
       (Ball.dampedVelocity cfg dt b).z +
         jitter (cfg.rnd (seed + 2)) * cfg.entropyLevel * 100 * dt⟩ ∧
    (Ball.update cfg dt b seed).2 = seed + 3 ∧
    (∀ (rnd' : ℕ → ℕ) (seed' : ℕ),
      (Ball.update { cfg with rnd := rnd' } dt b seed').1.pos =
        (Ball.update cfg dt b seed).1.pos ∧
      (Ball.update { cfg with rnd := rnd' } dt b seed').1.trail =
        (Ball.update cfg dt b seed).1.trail) ∧
    (cfg.entropyLevel = 0 → (Ball.update cfg dt b seed).1.vel = Ball.dampedVelocity cfg dt b) := by
  have hv := Ball.update_gravity_friction cfg dt b
  have hpos : ∀ (c : Config F) (sd : ℕ), c.blackHoleMode = false → c.cursorGravityMode = false →
      c.wallsAreMagnetic = false →
      (Ball.update c dt b sd).1.pos =
        b.pos + (b.vel + (⟨0, c.globalGravity, 0⟩ : Vec3 F) * dt) *
          (1 - c.globalFriction * dt) * dt ∧
      (Ball.update c dt b sd).1.trail =
        b.trail.add (b.pos + (b.vel + (⟨0, c.globalGravity, 0⟩ : Vec3 F) * dt) *
          (1 - c.globalFriction * dt) * dt) ∧
      (Ball.update c dt b sd).1.vel =
        ⟨((b.vel + (⟨0, c.globalGravity, 0⟩ : Vec3 F) * dt) * (1 - c.globalFriction * dt)).x +
            jitter (c.rnd sd) * c.entropyLevel * 100 * dt,
          ((b.vel + (⟨0, c.globalGravity, 0⟩ : Vec3 F) * dt) * (1 - c.globalFriction * dt)).y +
            jitter (c.rnd (sd + 1)) * c.entropyLevel * 100 * dt,
          ((b.vel + (⟨0, c.globalGravity, 0⟩ : Vec3 F) * dt) * (1 - c.globalFriction * dt)).z +
            jitter (c.rnd (sd + 2)) * c.entropyLevel * 100 * dt⟩ := by
    intro c sd h1 h2 h3
    unfold Ball.update
    simp only [h1, h2, h3, Bool.false_eq_true, if_false, and_self]
  obtain ⟨h1, h2, h3⟩ := hpos cfg seed hbh hcg hwm
  rw [hv] at h1 h2 h3
  refine ⟨h1, h2, ?_, h3, rfl, ?_, ?_⟩
  · rw [h2]
    exact Trail.add_getLast _ _
  · intro rnd' seed'
    obtain ⟨k1, k2, -⟩ := hpos { cfg with rnd := rnd' } seed' hbh hcg hwm
    exact ⟨by rw [k1, h1, ← hv], by rw [k2, h2, ← hv]⟩
  · intro he
    rw [h3, he, Vec3.ext_iff3]
    simp

/-- The ball at `(3, 0, 0)` with velocity `(1, 0, 0)` in the initial
configuration, `dt = 0.1`: gravity `-9.8`, friction `0.1`, no entropy. -/
theorem Ball.update_order_witness :
    cfg0.blackHoleMode = false ∧ cfg0.cursorGravityMode = false ∧
    cfg0.wallsAreMagnetic = false ∧ cfg0.entropyLevel = 0 ∧
    Ball.dampedVelocity cfg0 (1 / 10) (ballAt ℚ 3 1 (1 / 2)) = ⟨99 / 100, -9702 / 10000, 0⟩ ∧
    (Ball.update cfg0 (1 / 10) (ballAt ℚ 3 1 (1 / 2)) 0).1.pos =
      (ballAt ℚ 3 1 (1 / 2)).pos +
        Ball.dampedVelocity cfg0 (1 / 10) (ballAt ℚ 3 1 (1 / 2)) * (1 / 10 : ℚ) ∧
    (Ball.update cfg0 (1 / 10) (ballAt ℚ 3 1 (1 / 2)) 0).1.vel =
      Ball.dampedVelocity cfg0 (1 / 10) (ballAt ℚ 3 1 (1 / 2)) :=
  ⟨rfl, rfl, rfl, rfl, by decide!,
    (Ball.update_order cfg0 (1 / 10) (ballAt ℚ 3 1 (1 / 2)) 0 rfl rfl rfl).1,
    (Ball.update_order cfg0 (1 / 10) (ballAt ℚ 3 1 (1 / 2)) 0 rfl rfl rfl).2.2.2.2.2.2 rfl⟩

/-! ## Momentum of a pair -/

/-- C12 (momentum conservation), in exact arithmetic: for masses `massA > 0`
and `massB > 0` and every restitution, one pair resolution of
`handleCollisions` leaves the masses and the total linear momentum
`massA * velA + massB * velB` unchanged, whether the pair is out of contact, in
contact and separating, or in contact and approaching (velocity branch taken).
In binary32 the total of the stored velocities can change. -/
theorem collidePair_momentum (cfg : Config F) (A B : Ball F) (hA : 0 < A.mass)
    (hB : 0 < B.mass) :
    (collidePair cfg A B).1.mass = A.mass ∧ (collidePair cfg A B).2.1.mass = B.mass ∧
    pairMomentum (collidePair cfg A B).1 (collidePair cfg A B).2.1 = pairMomentum A B := by
  refine ⟨(collidePair_radius_mass cfg A B).2.2.1, (collidePair_radius_mass cfg A B).2.2.2, ?_⟩
  have hA0 : A.mass ≠ 0 := ne_of_gt hA
  have hB0 : B.mass ≠ 0 := ne_of_gt hB
  by_cases h : inContact cfg A B
  · by_cases hv : approachSpeed cfg A B < 0
    · rw [collidePair_of_approaching cfg A B h hv]
      unfold pairMomentum
      rw [Vec3.ext_iff3]
      simp only [Vec3.add_x, Vec3.add_y, Vec3.add_z, Vec3.sub_x, Vec3.sub_y, Vec3.sub_z,
        Vec3.mul_x, Vec3.mul_y, Vec3.mul_z, Vec3.div_x, Vec3.div_y, Vec3.div_z]
      refine ⟨?_, ?_, ?_⟩ <;> field_simp
    · rw [collidePair_of_separating cfg A B h hv]
      rfl
  · rw [collidePair_of_not_inContact cfg A B h]

/-- Radius 1 (mass 1) at the origin moving right at 2, radius 0.5 (mass 1/8) at
`x = 1` moving left at 1, restitution 0.9: the velocity branch is taken, the
velocities change, and the total momentum stays `(15/8, 0, 0)`. -/
theorem collidePair_momentum_witness :
    (0 : ℚ) < (ballAt ℚ 0 2 1).mass ∧ (0 : ℚ) < (ballAt ℚ 1 (-1) (1 / 2)).mass ∧
    approachSpeed cfg0 (ballAt ℚ 0 2 1) (ballAt ℚ 1 (-1) (1 / 2)) < 0 ∧
    (collidePair cfg0 (ballAt ℚ 0 2 1) (ballAt ℚ 1 (-1) (1 / 2))).1.vel ≠ (ballAt ℚ 0 2 1).vel ∧
    pairMomentum (ballAt ℚ 0 2 1) (ballAt ℚ 1 (-1) (1 / 2)) = ⟨15 / 8, 0, 0⟩ ∧
    pairMomentum (collidePair cfg0 (ballAt ℚ 0 2 1) (ballAt ℚ 1 (-1) (1 / 2))).1
        (collidePair cfg0 (ballAt ℚ 0 2 1) (ballAt ℚ 1 (-1) (1 / 2))).2.1 =
      pairMomentum (ballAt ℚ 0 2 1) (ballAt ℚ 1 (-1) (1 / 2)) :=
  ⟨by decide!, by decide!, by decide!, by decide!, by decide!,
    (collidePair_momentum cfg0 (ballAt ℚ 0 2 1) (ballAt ℚ 1 (-1) (1 / 2))
      (by decide!) (by decide!)).2.2⟩

/-! ## The pair resolution in binary32 -/

/-- The rounding reproduces known binary32 values: `0.9f`, `0.95f`, `7.9f`,
`0.6f`, `0.1f`, one third, a representable number, two ties, the smallest
subnormal tie, and the square roots of 2, 3, 10, 1/2 and 1/4. -/
theorem F32.known_values :
    F32.round (9 / 10) = 15099494 / 16777216 ∧ F32.round (95 / 100) = 15938355 / 16777216 ∧
    F32.round (79 / 10) = 16567501 / 2097152 ∧ F32.round (6 / 10) = 10066330 / 16777216 ∧
    F32.round (1 / 10) = 13421773 / 134217728 ∧ F32.round (1 / 3) = 11184811 / 33554432 ∧
    F32.round (13 / 2) = 13 / 2 ∧
    F32.round (1 + 1 / 16777216) = 1 ∧ F32.round (1 + 3 / 16777216) = 1 + 2 / 8388608 ∧
    F32.round (3 / 2 * F32.pow2 (-149)) = 2 * F32.pow2 (-149) ∧
    F32.sqrt 2 = 11863283 / 8388608 ∧ F32.sqrt 3 = 14529495 / 8388608 ∧
    F32.sqrt 10 = 6631777 / 2097152 ∧ F32.sqrt (1 / 2) = 11863283 / 16777216 ∧
    F32.sqrt (1 / 4) = 1 / 2 := by
  decide!

/-- C3 as stated fails in the arithmetic of the program: the balls
`Ball((7, 0, 0), 0, 0.95f)` and `Ball((7.9f, 0, 0), 0, 0.95f)` are in contact
(distance `7.9f - 7`, about 0.9, below `0.95f + 0.95f`), and the pair
resolution in binary32 leaves the centres at `6.5` and `8.3999996...`, on the
x axis, at distance `996147 / 524288 = 1.8999996...`, which is less than
`radiusA + radiusB = 1.8999999...`, both as the exact distance of the stored
centres and as the distance the program would compute. -/
theorem collidePair32_penetrates :
    (0 < ((Ball.new32 ⟨F32.round (79 / 10), 0, 0⟩ ⟨0, 0, 0⟩ (F32.round (95 / 100))).pos.sub32
        (Ball.new32 ⟨7, 0, 0⟩ ⟨0, 0, 0⟩ (F32.round (95 / 100))).pos).length32 ∧
      ((Ball.new32 ⟨F32.round (79 / 10), 0, 0⟩ ⟨0, 0, 0⟩ (F32.round (95 / 100))).pos.sub32
        (Ball.new32 ⟨7, 0, 0⟩ ⟨0, 0, 0⟩ (F32.round (95 / 100))).pos).length32 <
        F32.add (F32.round (95 / 100)) (F32.round (95 / 100))) ∧
    (0 < F32.round (79 / 10) - 7 ∧
      F32.round (79 / 10) - 7 < F32.round (95 / 100) + F32.round (95 / 100)) ∧
    (collidePair32 (F32.round (9 / 10))
        (Ball.new32 ⟨7, 0, 0⟩ ⟨0, 0, 0⟩ (F32.round (95 / 100)))
        (Ball.new32 ⟨F32.round (79 / 10), 0, 0⟩ ⟨0, 0, 0⟩ (F32.round (95 / 100)))).1.pos =
      ⟨13 / 2, 0, 0⟩ ∧
    (collidePair32 (F32.round (9 / 10))
        (Ball.new32 ⟨7, 0, 0⟩ ⟨0, 0, 0⟩ (F32.round (95 / 100)))
        (Ball.new32 ⟨F32.round (79 / 10), 0, 0⟩ ⟨0, 0, 0⟩ (F32.round (95 / 100)))).2.1.pos =
      ⟨4404019 / 524288, 0, 0⟩ ∧
    (4404019 / 524288 - 13 / 2 : ℚ) = 996147 / 524288 ∧
    (996147 / 524288 : ℚ) < F32.round (95 / 100) + F32.round (95 / 100) ∧
    ((collidePair32 (F32.round (9 / 10))
        (Ball.new32 ⟨7, 0, 0⟩ ⟨0, 0, 0⟩ (F32.round (95 / 100)))
        (Ball.new32 ⟨F32.round (79 / 10), 0, 0⟩ ⟨0, 0, 0⟩ (F32.round (95 / 100)))).2.1.pos.sub32
      (collidePair32 (F32.round (9 / 10))
        (Ball.new32 ⟨7, 0, 0⟩ ⟨0, 0, 0⟩ (F32.round (95 / 100)))
        (Ball.new32 ⟨F32.round (79 / 10), 0, 0⟩ ⟨0, 0, 0⟩
          (F32.round (95 / 100)))).1.pos).length32 <
      F32.add (F32.round (95 / 100)) (F32.round (95 / 100)) := by
  decide!

/-- C5 as stated fails in the arithmetic of the program: for
`A = Ball((0, 0, 0), (16, 16, 0), 2)` (mass 8) and
`B = Ball((0.6f, 0.9f, 0), (13, 18, 0), 0.5f)` (mass 1/8) with restitution
`0.9f`, the balls are in contact (as computed, and in exact arithmetic) and
approaching (`velAlongNormal = -2⁻²³`, and the exact relative velocity along
the line of centres is negative too), the velocity branch is taken (the spark
burst is requested), and both velocities come out exactly as they went in:
the two changes are zero, so that of `A` is not strictly smaller. -/
theorem collidePair32_equal_change :
    (Ball.new32 ⟨0, 0, 0⟩ ⟨16, 16, 0⟩ 2).mass = 8 ∧
    (Ball.new32 ⟨F32.round (6 / 10), F32.round (9 / 10), 0⟩ ⟨13, 18, 0⟩ (1 / 2)).mass = 1 / 8 ∧
    (0 < ((Ball.new32 ⟨F32.round (6 / 10), F32.round (9 / 10), 0⟩ ⟨13, 18, 0⟩ (1 / 2)).pos.sub32
        (Ball.new32 ⟨0, 0, 0⟩ ⟨16, 16, 0⟩ 2).pos).length32 ∧
      ((Ball.new32 ⟨F32.round (6 / 10), F32.round (9 / 10), 0⟩ ⟨13, 18, 0⟩ (1 / 2)).pos.sub32
        (Ball.new32 ⟨0, 0, 0⟩ ⟨16, 16, 0⟩ 2).pos).length32 < F32.add 2 (1 / 2)) ∧
    (0 < ((⟨F32.round (6 / 10), F32.round (9 / 10), 0⟩ : Vec3 ℚ) - ⟨0, 0, 0⟩).lengthSq ∧
      ((⟨F32.round (6 / 10), F32.round (9 / 10), 0⟩ : Vec3 ℚ) - ⟨0, 0, 0⟩).lengthSq <
        (2 + 1 / 2) * (2 + 1 / 2)) ∧
    approachSpeed32 (Ball.new32 ⟨0, 0, 0⟩ ⟨16, 16, 0⟩ 2)
      (Ball.new32 ⟨F32.round (6 / 10), F32.round (9 / 10), 0⟩ ⟨13, 18, 0⟩ (1 / 2)) =
      -1 / 8388608 ∧
    ((⟨13, 18, 0⟩ : Vec3 ℚ) - ⟨16, 16, 0⟩).dot
      ((⟨F32.round (6 / 10), F32.round (9 / 10), 0⟩ : Vec3 ℚ) - ⟨0, 0, 0⟩) < 0 ∧
    (collidePair32 (F32.round (9 / 10)) (Ball.new32 ⟨0, 0, 0⟩ ⟨16, 16, 0⟩ 2)
      (Ball.new32 ⟨F32.round (6 / 10), F32.round (9 / 10), 0⟩ ⟨13, 18, 0⟩
        (1 / 2))).2.2.isSome = true ∧
    (collidePair32 (F32.round (9 / 10)) (Ball.new32 ⟨0, 0, 0⟩ ⟨16, 16, 0⟩ 2)
      (Ball.new32 ⟨F32.round (6 / 10), F32.round (9 / 10), 0⟩ ⟨13, 18, 0⟩ (1 / 2))).1.vel =
      ⟨16, 16, 0⟩ ∧
    (collidePair32 (F32.round (9 / 10)) (Ball.new32 ⟨0, 0, 0⟩ ⟨16, 16, 0⟩ 2)
      (Ball.new32 ⟨F32.round (6 / 10), F32.round (9 / 10), 0⟩ ⟨13, 18, 0⟩ (1 / 2))).2.1.vel =
      ⟨13, 18, 0⟩ ∧
    ¬ (((collidePair32 (F32.round (9 / 10)) (Ball.new32 ⟨0, 0, 0⟩ ⟨16, 16, 0⟩ 2)
          (Ball.new32 ⟨F32.round (6 / 10), F32.round (9 / 10), 0⟩ ⟨13, 18, 0⟩
            (1 / 2))).1.vel.sub32 ⟨16, 16, 0⟩).length32 <
        ((collidePair32 (F32.round (9 / 10)) (Ball.new32 ⟨0, 0, 0⟩ ⟨16, 16, 0⟩ 2)
          (Ball.new32 ⟨F32.round (6 / 10), F32.round (9 / 10), 0⟩ ⟨13, 18, 0⟩
            (1 / 2))).2.1.vel.sub32 ⟨13, 18, 0⟩).length32) := by
  decide!

/-- C12 as stated fails in the arithmetic of the program: for
`A = Ball((0, 0, 0), (1, 0, 0), 2)` (mass 8) and
`B = Ball((1, 0, 0), (-1, 0, 0), 0.5f)` (mass 1/8) with restitution `0.9f`, the
pair resolution in binary32 leaves the velocities `7898197 / 8388608` and
`5749423 / 2097152` on the x axis, and the total `massA * velA + massB * velB`
of the stored values goes from `63 / 8` to `63 / 8 - 2⁻²⁴`. -/
theorem collidePair32_momentum_changes :
    (Ball.new32 ⟨0, 0, 0⟩ ⟨1, 0, 0⟩ 2).mass = 8 ∧
    (Ball.new32 ⟨1, 0, 0⟩ ⟨-1, 0, 0⟩ (1 / 2)).mass = 1 / 8 ∧
    (collidePair32 (F32.round (9 / 10)) (Ball.new32 ⟨0, 0, 0⟩ ⟨1, 0, 0⟩ 2)
      (Ball.new32 ⟨1, 0, 0⟩ ⟨-1, 0, 0⟩ (1 / 2))).1.vel = ⟨7898197 / 8388608, 0, 0⟩ ∧
    (collidePair32 (F32.round (9 / 10)) (Ball.new32 ⟨0, 0, 0⟩ ⟨1, 0, 0⟩ 2)
      (Ball.new32 ⟨1, 0, 0⟩ ⟨-1, 0, 0⟩ (1 / 2))).2.1.vel = ⟨5749423 / 2097152, 0, 0⟩ ∧
    (collidePair32 (F32.round (9 / 10)) (Ball.new32 ⟨0, 0, 0⟩ ⟨1, 0, 0⟩ 2)
      (Ball.new32 ⟨1, 0, 0⟩ ⟨-1, 0, 0⟩ (1 / 2))).1.mass = 8 ∧
    (collidePair32 (F32.round (9 / 10)) (Ball.new32 ⟨0, 0, 0⟩ ⟨1, 0, 0⟩ 2)
      (Ball.new32 ⟨1, 0, 0⟩ ⟨-1, 0, 0⟩ (1 / 2))).2.1.mass = 1 / 8 ∧
    pairMomentum (Ball.new32 ⟨0, 0, 0⟩ ⟨1, 0, 0⟩ 2)
      (Ball.new32 ⟨1, 0, 0⟩ ⟨-1, 0, 0⟩ (1 / 2)) = ⟨63 / 8, 0, 0⟩ ∧
    pairMomentum
      (collidePair32 (F32.round (9 / 10)) (Ball.new32 ⟨0, 0, 0⟩ ⟨1, 0, 0⟩ 2)
        (Ball.new32 ⟨1, 0, 0⟩ ⟨-1, 0, 0⟩ (1 / 2))).1
      (collidePair32 (F32.round (9 / 10)) (Ball.new32 ⟨0, 0, 0⟩ ⟨1, 0, 0⟩ 2)
        (Ball.new32 ⟨1, 0, 0⟩ ⟨-1, 0, 0⟩ (1 / 2))).2.1 =
      ⟨63 / 8 - 1 / 16777216, 0, 0⟩ ∧
    pairMomentum
      (collidePair32 (F32.round (9 / 10)) (Ball.new32 ⟨0, 0, 0⟩ ⟨1, 0, 0⟩ 2)
        (Ball.new32 ⟨1, 0, 0⟩ ⟨-1, 0, 0⟩ (1 / 2))).1
      (collidePair32 (F32.round (9 / 10)) (Ball.new32 ⟨0, 0, 0⟩ ⟨1, 0, 0⟩ 2)
        (Ball.new32 ⟨1, 0, 0⟩ ⟨-1, 0, 0⟩ (1 / 2))).2.1 ≠
      pairMomentum (Ball.new32 ⟨0, 0, 0⟩ ⟨1, 0, 0⟩ 2)
        (Ball.new32 ⟨1, 0, 0⟩ ⟨-1, 0, 0⟩ (1 / 2)) := by
  decide!

end Lemmas

end GravityBalls
